import Mathlib

/-!
# librib `iputils.c`: a shallow embedding and its verified properties

C strings are modelled by the list of their characters before the terminating
NUL (`List Char`, one character per byte).  `int` values are mathematical
integers kept inside the 32-bit two's-complement range by `toInt32` at the one
place where the code can leave it (`atoi`).  An execution that leaves defined
behaviour (a read of an automatic variable that was never stored to, an access
outside an array or heap object) ends in `Except.error`.  A function that can
return `NULL` returns an `Option`, `none` being `NULL`.  The functions of the C
library that parse or resolve a numeric address (`inet_pton`, `getaddrinfo`) are
parameters of the model.
-/

namespace Rib

/-! ## Executions -/

/-- The ways in which an execution of the C code leaves defined behaviour. -/
inductive Fault
  /-- An automatic `int` slot or a heap byte is read before any store to it. -/
  | uninitRead
  /-- A cell outside its array or heap object is read or written. -/
  | outOfBounds
  /-- A bounded loop of the model ran out of iterations (never reached). -/
  | outOfFuel
  deriving DecidableEq, Repr

/-- Result of running a piece of C code: a value, or the fault that ended it. -/
abbrev Exec (α : Type) := Except Fault α

instance instDecidableEqExcept {ε α : Type} [DecidableEq ε] [DecidableEq α] :
    DecidableEq (Except ε α)
  | .ok a, .ok b =>
    if h : a = b then isTrue (by rw [h]) else isFalse (fun e => h (by cases e; rfl))
  | .error a, .error b =>
    if h : a = b then isTrue (by rw [h]) else isFalse (fun e => h (by cases e; rfl))
  | .ok _, .error _ => isFalse (fun e => by cases e)
  | .error _, .ok _ => isFalse (fun e => by cases e)

/-! ## The C library functions the code calls -/

/-- One call of `strtok(p, ".")` or `strtok(NULL, ".")`: the argument is the text
from the scan position to the end of the string.  Leading dots are skipped; if
nothing is left the call returns `NULL`, otherwise the token runs to the next
dot (which is overwritten by NUL) and the saved position is the character after
that dot. -/
def strtok (s : List Char) : Option (List Char) × List Char :=
  match s.dropWhile (fun c => c == '.') with
  | [] => (none, [])
  | c :: cs =>
    (some ((c :: cs).takeWhile (fun d => d != '.')),
      ((c :: cs).dropWhile (fun d => d != '.')).drop 1)

/-- The C locale `isspace`: space, `\t`, `\n`, `\v`, `\f`, `\r`. -/
def isspace (c : Char) : Bool :=
  c.toNat == 32 || (9 ≤ c.toNat && c.toNat ≤ 13)

/-- Accumulates the leading run of decimal digits of a string. -/
def strtolDigits : Nat → List Char → Nat
  | acc, [] => acc
  | acc, c :: cs =>
    if c.isDigit then strtolDigits (acc * 10 + (c.toNat - 48)) cs else acc

/-- Largest value of a 64-bit `long`. -/
def LONG_MAX : Int := 2 ^ 63 - 1

/-- Smallest value of a 64-bit `long`. -/
def LONG_MIN : Int := -(2 ^ 63)

/-- The call `strtol(s, NULL, 10)`: optional white space, optional sign, digits;
a value outside `long` is clamped to `LONG_MIN` or `LONG_MAX`. -/
def strtol (s : List Char) : Int :=
  match s.dropWhile isspace with
  | '-' :: r => max LONG_MIN (-(strtolDigits 0 r : Int))
  | '+' :: r => min LONG_MAX (strtolDigits 0 r : Int)
  | r => min LONG_MAX (strtolDigits 0 r : Int)

/-- Conversion of a `long` to `int`: reduction modulo `2^32` into
`[-2^31, 2^31)`. -/
def toInt32 (v : Int) : Int := (v + 2 ^ 31) % 2 ^ 32 - 2 ^ 31

/-- The call `atoi(s)`, which is `(int) strtol(s, NULL, 10)`. -/
def atoi (s : List Char) : Int := toInt32 (strtol s)

/-! ## Automatic `int` arrays -/

/-- An `int a[4]` on the stack; `none` marks a slot that was never stored to. -/
abbrev IntArray := List (Option Int)

/-- A fresh `int a[4]`. -/
def freshInts : IntArray := [none, none, none, none]

/-- The store `a[i] = v`. -/
def storeInt (a : IntArray) (i : Nat) (v : Int) : Exec IntArray :=
  if i < a.length then .ok (a.set i (some v)) else .error .outOfBounds

/-- The read `a[i]`. -/
def loadInt (a : IntArray) (i : Nat) : Exec Int :=
  match a[i]? with
  | some (some v) => .ok v
  | some none => .error .uninitRead
  | none => .error .outOfBounds

/-- The loop `while (tok) { a[i++] = atoi(tok); tok = strtok(NULL, "."); }` of
`getCIDRnetmask` and `getIpv4NetworkAddress`.  The first argument bounds the
number of iterations; five are enough, the fifth store being out of bounds. -/
def tokenLoop : Nat → Option (List Char) → List Char → Nat → IntArray → Exec IntArray
  | _, none, _, _, a => .ok a
  | 0, some _, _, _, _ => .error .outOfFuel
  | fuel + 1, some tok, saved, i, a =>
    match storeInt a i (atoi tok) with
    | .error e => .error e
    | .ok a1 => tokenLoop fuel (strtok saved).1 (strtok saved).2 (i + 1) a1

/-! ## `getCIDRnetmask` -/

/-- The `switch` of `getCIDRnetmask`: the amount added for a mask byte, `none`
for the `default` branch. -/
def maskByteBits (b : Int) : Option Int :=
  if b = 0x80 then some 1
  else if b = 0xC0 then some 2
  else if b = 0xE0 then some 3
  else if b = 0xF0 then some 4
  else if b = 0xF8 then some 5
  else if b = 0xFC then some 6
  else if b = 0xFE then some 7
  else if b = 0xFF then some 8
  else none

/-- The loop `for (int i = 0; i < 4; i++) switch (ipbytes[i]) ...`; the first
argument is the number of iterations left, `4 - i`. -/
def cidrScan : Nat → Nat → IntArray → Int → Exec Int
  | 0, _, _, cidrNetmask => .ok cidrNetmask
  | n + 1, i, ipbytes, cidrNetmask =>
    match loadInt ipbytes i with
    | .error e => .error e
    | .ok b =>
      match maskByteBits b with
      | some k => cidrScan n (i + 1) ipbytes (cidrNetmask + k)
      | none => .ok cidrNetmask

/-- The function `int getCIDRnetmask(const char *netmask)`. -/
def getCIDRnetmask (netmask : List Char) : Exec Int :=
  match tokenLoop 5 (strtok netmask).1 (strtok netmask).2 0 freshInts with
  | .error e => .error e
  | .ok ipbytes => cidrScan 4 0 ipbytes 0

/-! ## Formatted output -/

/-- Digits of `n` in the given base, most significant first, lowercase for the
digits above nine; the first argument bounds the number of digits. -/
def natDigits (base : Nat) : Nat → Nat → List Char
  | 0, _ => []
  | fuel + 1, n =>
    if n < base then [Nat.digitChar n]
    else natDigits base fuel (n / base) ++ [Nat.digitChar (n % base)]

/-- The `printf` conversion `%d` of an `int`, which has at most ten decimal
digits. -/
def fmtD (v : Int) : List Char :=
  if v < 0 then '-' :: natDigits 10 10 v.natAbs else natDigits 10 10 v.natAbs

/-- The `printf` conversion `%02x` of an `unsigned int`, which has at most eight
hexadecimal digits: lowercase hexadecimal, padded with zeros on the left to at
least two characters. -/
def fmt02x (v : Nat) : List Char :=
  List.replicate (2 - (natDigits 16 8 v).length) '0' ++ natDigits 16 8 v

/-- The text `sprintf` writes for `"%d.%d.%d.%d"`. -/
def dotted4 (a b c d : Int) : List Char :=
  fmtD a ++ '.' :: (fmtD b ++ '.' :: (fmtD c ++ '.' :: fmtD d))

/-- A `sprintf` of `text` into a buffer of `cap` bytes: the text and its
terminating NUL must fit. -/
def sprintfInto (cap : Nat) (text : List Char) : Exec (List Char) :=
  if text.length + 1 ≤ cap then .ok text else .error .outOfBounds

/-- The call `strcmp(a, b)`: the difference of the first pair of bytes that
differ, the terminating NUL counting as 0. -/
def strcmp : List Char → List Char → Int
  | [], [] => 0
  | [], b :: _ => -(b.toNat : Int)
  | a :: _, [] => (a.toNat : Int)
  | a :: as, b :: bs => if a = b then strcmp as bs else (a.toNat : Int) - (b.toNat : Int)

/-! ## `getIpv4NetworkAddress` -/

/-- The loop `for (i = 0; i < 4; i++) networkAddrBytes[i] = ipBytes[i] & netmaskBytes[i];`
the first argument is the number of iterations left. -/
def andLoop : Nat → Nat → IntArray → IntArray → IntArray → Exec IntArray
  | 0, _, _, _, networkAddrBytes => .ok networkAddrBytes
  | n + 1, i, ipBytes, netmaskBytes, networkAddrBytes => do
    let a ← loadInt ipBytes i
    let m ← loadInt netmaskBytes i
    let out ← storeInt networkAddrBytes i (Int.land a m)
    andLoop n (i + 1) ipBytes netmaskBytes out

/-- The call `sprintf(buf, "%d.%d.%d.%d", a[0], a[1], a[2], a[3])` into a buffer
of `cap` bytes. -/
def sprintfDotted (cap : Nat) (a : IntArray) : Exec (List Char) := do
  let b0 ← loadInt a 0
  let b1 ← loadInt a 1
  let b2 ← loadInt a 2
  let b3 ← loadInt a 3
  sprintfInto cap (dotted4 b0 b1 b2 b3)

/-- The function `char* getIpv4NetworkAddress(const char*, const char*)`; the
result is the string in the returned 17-byte buffer. -/
def getIpv4NetworkAddress (ipAddress netmask : List Char) : Exec (List Char) := do
  let ipBytes ← tokenLoop 5 (strtok ipAddress).1 (strtok ipAddress).2 0 freshInts
  let netmaskBytes ← tokenLoop 5 (strtok netmask).1 (strtok netmask).2 0 freshInts
  let networkAddrBytes ← andLoop 4 0 ipBytes netmaskBytes freshInts
  sprintfDotted 17 networkAddrBytes

/-! ## `formatIPv4Address` and `compareIPv4Addresses` -/

/-- What a reformatting function did to the caller's heap string. -/
structure Reformatted where
  /-- The string `*ipAddress` holds when the function returns. -/
  text : List Char
  /-- The size passed to `realloc`, `none` when `realloc` was not called. -/
  reallocTo : Option Nat
  deriving DecidableEq, Repr

/-- The loop `for (int i = 0; ipToken && i < 4; i++)` of `formatIPv4Address`,
which fills `ipBytes` and adds the digit widths to `newAddrSize`; the first
argument is `4 - i`. -/
def widthLoop : Nat → Option (List Char) → List Char → Nat → IntArray → Nat →
    Exec (IntArray × Nat)
  | 0, _, _, _, ipBytes, newAddrSize => .ok (ipBytes, newAddrSize)
  | _ + 1, none, _, _, ipBytes, newAddrSize => .ok (ipBytes, newAddrSize)
  | n + 1, some ipToken, saved, i, ipBytes, newAddrSize => do
    let stored ← storeInt ipBytes i (atoi ipToken)
    let b ← loadInt stored i
    let size := if b < 10 then newAddrSize + 1
      else if b < 100 then newAddrSize + 2 else newAddrSize + 3
    widthLoop n (strtok saved).1 (strtok saved).2 (i + 1) stored size

/-- The function `void formatIPv4Address(char** ipAddress)`, as its effect on
`*ipAddress`. -/
def formatIPv4Address (ipAddress : List Char) : Exec Reformatted := do
  let (ipBytes, newAddrSize) ←
    widthLoop 4 (strtok ipAddress).1 (strtok ipAddress).2 0 freshInts 3
  let text ← sprintfDotted (newAddrSize + 1) ipBytes
  pure { text := text, reallocTo := some (newAddrSize + 1) }

/-- The function `int compareIPv4Addresses(const char*, const char*)`. -/
def compareIPv4Addresses (ipAddress cmpIpAddress : List Char) : Exec Int := do
  let ipAddr1 ← formatIPv4Address ipAddress
  let ipAddr2 ← formatIPv4Address cmpIpAddress
  pure (strcmp ipAddr1.text ipAddr2.text)

/-! ## IPv6: `formatIPv6Address`, `compareIPv6Addresses`, `getIpv6NetworkAddress` -/

/-- A `struct in6_addr`: the sixteen bytes `s6_addr[0..15]` of the address. -/
structure in6_addr where
  /-- The bytes of the address, most significant first. -/
  s6_addr : List Nat
  /-- There are sixteen of them. -/
  size_eq : s6_addr.length = 16
  /-- Each is a `uint8_t`. -/
  byte_lt : ∀ b ∈ s6_addr, b < 256

/-- The numeric IPv6 parse `inet_pton(AF_INET6, text, &addr) == 1`, a function
of the C library: `some addr` when the call returns 1, `none` otherwise. -/
abbrev Ipv6Parse := List Char → Option in6_addr

/-- The read `ipv6Addr.s6_addr[i]`. -/
def loadByte (a : in6_addr) (i : Nat) : Exec Nat :=
  match a.s6_addr[i]? with
  | some b => .ok b
  | none => .error .outOfBounds

/-- The text `sprintf` writes for the format of `formatIPv6Address`,
`"%02x%02x:%02x%02x:%02x%02x:%02x%02x:%02x%02x:%02x%02x:%02x%02x:%02x%02x"`,
applied to `s6_addr[0]`, ..., `s6_addr[15]`. -/
def expandedText (a : in6_addr) : Exec (List Char) := do
  let b0 ← loadByte a 0
  let b1 ← loadByte a 1
  let b2 ← loadByte a 2
  let b3 ← loadByte a 3
  let b4 ← loadByte a 4
  let b5 ← loadByte a 5
  let b6 ← loadByte a 6
  let b7 ← loadByte a 7
  let b8 ← loadByte a 8
  let b9 ← loadByte a 9
  let b10 ← loadByte a 10
  let b11 ← loadByte a 11
  let b12 ← loadByte a 12
  let b13 ← loadByte a 13
  let b14 ← loadByte a 14
  let b15 ← loadByte a 15
  pure (fmt02x b0 ++ fmt02x b1 ++ ':' :: (fmt02x b2 ++ fmt02x b3 ++ ':' ::
    (fmt02x b4 ++ fmt02x b5 ++ ':' :: (fmt02x b6 ++ fmt02x b7 ++ ':' ::
    (fmt02x b8 ++ fmt02x b9 ++ ':' :: (fmt02x b10 ++ fmt02x b11 ++ ':' ::
    (fmt02x b12 ++ fmt02x b13 ++ ':' :: (fmt02x b14 ++ fmt02x b15))))))))

/-- The function `void formatIPv6Address(char** ipAddress)`, as its effect on
`*ipAddress`. -/
def formatIPv6Address (inet_pton : Ipv6Parse) (ipAddress : List Char) : Exec Reformatted :=
  match inet_pton ipAddress with
  | some ipv6Addr => do
    let text ← expandedText ipv6Addr
    let written ← sprintfInto (39 + 1) text
    pure { text := written, reallocTo := some (39 + 1) }
  | none => pure { text := ipAddress, reallocTo := none }

/-- The function `int compareIPv6Addresses(const char*, const char*)`. -/
def compareIPv6Addresses (inet_pton : Ipv6Parse) (ipAddress cmpIpAddress : List Char) :
    Exec Int := do
  let ipAddr1 ← formatIPv6Address inet_pton ipAddress
  let ipAddr2 ← formatIPv6Address inet_pton cmpIpAddress
  pure (strcmp ipAddr1.text ipAddr2.text)

/-- The bytes of a heap or stack `char` buffer; `none` marks a byte that was
never written. -/
abbrev CharBuf := List (Option Char)

/-- The result of `malloc(n)`: `n` bytes, none of them written. -/
def malloc (n : Nat) : CharBuf := List.replicate n none

/-- A store of one byte at `buf[i]`. -/
def storeCell (buf : CharBuf) (i : Nat) (c : Option Char) : Exec CharBuf :=
  if i < buf.length then .ok (buf.set i c) else .error .outOfBounds

/-- The buffer `char addrPart[3]` after `sprintf(addrPart, "%02x", b)`. -/
def addrPartOf (b : Nat) : Exec CharBuf := do
  let text ← sprintfInto 3 (fmt02x b)
  pure ((text.map some ++ [some (Char.ofNat 0)]) ++ malloc (3 - (text.length + 1)))

/-- The call `memcpy(buf + i, src, 2)`. -/
def memcpy2 (buf : CharBuf) (i : Nat) (src : CharBuf) : Exec CharBuf :=
  match src with
  | c0 :: c1 :: _ => do
    let buf1 ← storeCell buf i c0
    storeCell buf1 (i + 1) c1
  | _ => .error .outOfBounds

/-- State of the two loops of `getIpv6NetworkAddress`. -/
structure Ipv6Fill where
  /-- The write position `i`. -/
  i : Nat
  /-- The flag `putColumn`. -/
  putColumn : Int
  /-- The index `addrIndex`. -/
  addrIndex : Nat
  /-- The buffer `networkAddress`. -/
  networkAddress : CharBuf

/-- The loop `while (i < networkAddressPartSize)`, which copies address bytes as
hex pairs.  The first argument bounds the number of iterations; seventeen are
enough, the seventeenth read of `s6_addr` being out of bounds. -/
def copyLoop (ipv6Addr : in6_addr) (networkAddressPartSize : Int) :
    Nat → Ipv6Fill → Exec Ipv6Fill
  | 0, st => if (st.i : Int) < networkAddressPartSize then .error .outOfFuel else .ok st
  | fuel + 1, st =>
    if (st.i : Int) < networkAddressPartSize then do
      let b ← loadByte ipv6Addr st.addrIndex
      let addrPart ← addrPartOf b
      let buf ← memcpy2 st.networkAddress st.i addrPart
      if st.putColumn = 1 ∧ st.i + 2 < 39 then do
        let buf1 ← storeCell buf (st.i + 2) (some ':')
        copyLoop ipv6Addr networkAddressPartSize fuel
          ⟨st.i + 2 + 1, 1 - st.putColumn, st.addrIndex + 1, buf1⟩
      else
        copyLoop ipv6Addr networkAddressPartSize fuel
          ⟨st.i + 2, 1 - st.putColumn, st.addrIndex + 1, buf⟩
    else .ok st

/-- The loop `while (i < newAddrSize)`, which fills the rest with `"00"` pairs.
The first argument bounds the number of iterations; `i` grows by at least two
in each, so twenty are enough. -/
def zeroLoop : Nat → Ipv6Fill → Exec Ipv6Fill
  | 0, st => if st.i < 39 then .error .outOfFuel else .ok st
  | fuel + 1, st =>
    if st.i < 39 then do
      let buf ← memcpy2 st.networkAddress st.i [some '0', some '0', some (Char.ofNat 0)]
      if st.putColumn ≠ 0 ∧ st.i + 2 + 1 < 39 then do
        let buf1 ← storeCell buf (st.i + 2) (some ':')
        zeroLoop fuel ⟨st.i + 2 + 1, 1 - st.putColumn, st.addrIndex, buf1⟩
      else
        zeroLoop fuel ⟨st.i + 2, 1 - st.putColumn, st.addrIndex, buf⟩
    else .ok st

/-- The function `char* getIpv6NetworkAddress(const char*, int)`: the returned
40-byte buffer, or `none` for `NULL`.  The divisions are those of C, which round
towards zero. -/
def getIpv6NetworkAddress (inet_pton : Ipv6Parse) (ipAddress : List Char)
    (prefixLength : Int) : Exec (Option CharBuf) :=
  match inet_pton ipAddress with
  | some ipv6Addr => do
    let networkAddress := malloc (39 + 1)
    let bytes := Int.tdiv prefixLength 8
    let networkAddressPartSize := bytes * 2 + Int.tdiv bytes 2
    let st1 ← copyLoop ipv6Addr networkAddressPartSize 17 ⟨0, 0, 0, networkAddress⟩
    let st2 ← zeroLoop 20 st1
    pure (some st2.networkAddress)
  | none => pure none

/-! ## `isValidIpAddress` -/

/-- The address family `AF_INET` (its Linux value). -/
def AF_INET : Int := 2

/-- The address family `AF_INET6` (its Linux value). -/
def AF_INET6 : Int := 10

/-- The numeric-host resolver `getaddrinfo(text, NULL, &hint, &res)` with
`AI_NUMERICHOST`, a function of the C library: `none` when the call returns
non-zero, `some family` when it returns 0 and `res->ai_family` is `family`. -/
abbrev Resolver := List Char → Option Int

/-- What a call of `isValidIpAddress` did. -/
structure Validation where
  /-- The returned `int`. -/
  ret : Int
  /-- The out-parameter `ipv` afterwards: `none` for a `NULL` pointer, otherwise
  the pointed-to `int`, `some none` while it was never written. -/
  ipv : Option (Option Int)
  /-- Whether the function stored to `*ipv`. -/
  wrote : Bool
  /-- Number of resolver results obtained from `getaddrinfo`. -/
  acquired : Nat
  /-- Number of calls of `freeaddrinfo`. -/
  released : Nat
  deriving DecidableEq, Repr

/-- The function `int isValidIpAddress(const char *ipAddr, int* ipv)`; a `NULL`
`ipAddr` is `none`. -/
def isValidIpAddress (getaddrinfo : Resolver) (ipAddr : Option (List Char))
    (ipv : Option (Option Int)) : Validation :=
  match ipAddr with
  | none => { ret := 1, ipv := ipv, wrote := false, acquired := 0, released := 0 }
  | some text =>
    match getaddrinfo text with
    | none => { ret := 1, ipv := ipv, wrote := false, acquired := 0, released := 0 }
    | some ai_family =>
      if ai_family = AF_INET then
        { ret := 0, ipv := ipv.map (fun _ => some 4), wrote := ipv.isSome,
          acquired := 1, released := 1 }
      else if ai_family = AF_INET6 then
        { ret := 0, ipv := ipv.map (fun _ => some 6), wrote := ipv.isSome,
          acquired := 1, released := 1 }
      else { ret := 1, ipv := ipv, wrote := false, acquired := 1, released := 0 }

/-! ## Reference notions used to state the properties -/

/-- The 32-bit mask with `n` leading 1-bits followed by `32 - n` 0-bits. -/
def prefixMask (n : Nat) : Nat := 2 ^ 32 - 2 ^ (32 - n)

/-- Dotted-decimal rendering of a 32-bit value, most significant octet first. -/
def dottedDecimal (m : Nat) : String :=
  toString (m / 2 ^ 24 % 256) ++ "." ++ toString (m / 2 ^ 16 % 256) ++ "." ++
    toString (m / 2 ^ 8 % 256) ++ "." ++ toString (m % 256)

/-- A non-empty string of decimal digits. -/
def IsDigits (t : List Char) : Prop := t ≠ [] ∧ ∀ c ∈ t, c.isDigit = true

instance instDecidableIsDigits (t : List Char) : Decidable (IsDigits t) := by
  unfold IsDigits
  infer_instance

/-- The number a string of decimal digits denotes. -/
def decValue (t : List Char) : Nat :=
  t.foldl (fun acc c => acc * 10 + (c.toNat - 48)) 0

/-- Four tokens separated by single dots. -/
def joinDots (t0 t1 t2 t3 : List Char) : List Char :=
  t0 ++ '.' :: (t1 ++ '.' :: (t2 ++ '.' :: t3))

/-- The string `s` is the decimal numeral of `v` without leading zeros. -/
def IsCanonicalDec (s : List Char) (v : Nat) : Prop :=
  IsDigits s ∧ decValue s = v ∧ (s.head? = some '0' → s = ['0'])

instance instDecidableIsCanonicalDec (s : List Char) (v : Nat) :
    Decidable (IsCanonicalDec s v) := by
  unfold IsCanonicalDec
  infer_instance

/-- Number of characters the size computation of `formatIPv4Address` reserves
for an octet: 1 below 10, 2 below 100, otherwise 3. -/
def digitWidth (v : Nat) : Nat := if v < 10 then 1 else if v < 100 then 2 else 3

/-- A decimal token of an IPv4 address: digits, leading zeros allowed, with a
value in 0..255. -/
def IsOctet (t : List Char) : Prop := IsDigits t ∧ decValue t ≤ 255

instance instDecidableIsOctet (t : List Char) : Decidable (IsOctet t) := by
  unfold IsOctet
  infer_instance

/-- The lowercase hexadecimal digit of a value below sixteen. -/
def lowerHex (d : Nat) : Char := "0123456789abcdef".toList.getD d '?'

/-- The two-digit, zero-padded lowercase hexadecimal numeral of a byte. -/
def hexPair (b : Nat) : List Char := [lowerHex (b / 16), lowerHex (b % 16)]

/-- The four hex digits of each 16-bit group of an address, first group first. -/
def hexGroups : List Nat → List (List Char)
  | b0 :: b1 :: rest => (hexPair b0 ++ hexPair b1) :: hexGroups rest
  | _ => []

/-- The fully expanded colon-hex text of an address: its groups of four hex
digits joined by single colons. -/
def expandedForm (bytes : List Nat) : List Char :=
  [':'].intercalate (hexGroups bytes)

/-- The sixteen bytes of an address cut to its first `n` bytes: byte `k` is
`bytes[k]` for `k < n` and 0 for `k ≥ n`. -/
def prefixBytes (n : Nat) (bytes : List Nat) : List Nat :=
  (List.range 16).map (fun k => if k < n then bytes.getD k 0 else 0)

/-! ## Auxiliary definitions for the proofs -/

/-- The three bytes of `addrPart` for a byte below 256: its two hex digits and
the terminating NUL. -/
def hexCells (b : Nat) : CharBuf :=
  [some (lowerHex (b / 16)), some (lowerHex (b % 16)), some (Char.ofNat 0)]

/-- The loop `copyLoop` with `addrPartOf b` replaced by `hexCells b`, to which it
is equal on the bytes of an address (`copyLoop_eq_copyLoopHex`). -/
def copyLoopHex (ipv6Addr : in6_addr) (networkAddressPartSize : Int) :
    Nat → Ipv6Fill → Exec Ipv6Fill
  | 0, st => if (st.i : Int) < networkAddressPartSize then .error .outOfFuel else .ok st
  | fuel + 1, st =>
    if (st.i : Int) < networkAddressPartSize then do
      let b ← loadByte ipv6Addr st.addrIndex
      let buf ← memcpy2 st.networkAddress st.i (hexCells b)
      if st.putColumn = 1 ∧ st.i + 2 < 39 then do
        let buf1 ← storeCell buf (st.i + 2) (some ':')
        copyLoopHex ipv6Addr networkAddressPartSize fuel
          ⟨st.i + 2 + 1, 1 - st.putColumn, st.addrIndex + 1, buf1⟩
      else
        copyLoopHex ipv6Addr networkAddressPartSize fuel
          ⟨st.i + 2, 1 - st.putColumn, st.addrIndex + 1, buf⟩
    else .ok st

/-- The two loops of `getIpv6NetworkAddress` in sequence, with `copyLoopHex` for
the first, and the buffer they leave. -/
def fillHex (ipv6Addr : in6_addr) (networkAddressPartSize : Int) : Exec (Option CharBuf) := do
  let st1 ← copyLoopHex ipv6Addr networkAddressPartSize 17 ⟨0, 0, 0, malloc (39 + 1)⟩
  let st2 ← zeroLoop 20 st1
  pure (some st2.networkAddress)

/-! ## Sample data for instantiating the theorems -/

/-- The address `2001:db8::1428:57ab`. -/
def addr57ab : in6_addr :=
  ⟨[0x20, 0x01, 0x0d, 0xb8, 0, 0, 0, 0, 0, 0, 0, 0, 0x14, 0x28, 0x57, 0xab],
    by decide, by decide⟩

/-- The address `2001:db8::1`. -/
def addrDb81 : in6_addr :=
  ⟨[0x20, 0x01, 0x0d, 0xb8, 0, 0, 0, 0, 0, 0, 0, 0, 0, 0, 0, 1], by decide, by decide⟩

/-- A numeric IPv6 parse restricted to four literals: it accepts
`2001:db8::1428:57ab`, `2001:0db8:0000:0000:0000:0000:1428:57ab` and `2001:db8::1`
with the bytes they denote and rejects every other string, `not-valid` among
them. -/
def sampleParse : Ipv6Parse := fun text =>
  if text = "2001:db8::1428:57ab".toList then some addr57ab
  else if text = "2001:0db8:0000:0000:0000:0000:1428:57ab".toList then some addr57ab
  else if text = "2001:db8::1".toList then some addrDb81
  else none

/-- A numeric-host resolver restricted to a few literals: `192.168.1.10` is
IPv4, `2001:db8::1` is IPv6, `unix` resolves to a family that is neither, and
every other string fails. -/
def sampleResolver : Resolver := fun text =>
  if text = "192.168.1.10".toList then some AF_INET
  else if text = "2001:db8::1".toList then some AF_INET6
  else if text = "unix".toList then some 1
  else none

/-- A token of `strtok(_, ".")`: a non-empty string without a dot. -/
def IsToken (t : List Char) : Prop := t ≠ [] ∧ ∀ c ∈ t, c ≠ '.'

instance instDecidableIsToken (t : List Char) : Decidable (IsToken t) := by
  unfold IsToken
  infer_instance

/-- Byte-wise lexicographic order on strings: `lexLt x y` holds when `x` is a
proper prefix of `y` or the first byte in which they differ is smaller in `x`. -/
def lexLt : List Char → List Char → Bool
  | [], [] => false
  | [], _ :: _ => true
  | _ :: _, [] => false
  | a :: as, b :: bs => decide (a.toNat < b.toNat) || (a == b && lexLt as bs)

/-- The eight byte values of a canonical mask that carry 1-bits: a run of 1-bits
followed by 0-bits. -/
def regularByte (o : Nat) : Bool :=
  decide (o ∈ [128, 192, 224, 240, 248, 252, 254, 255])

/-- Number of 1-bits of an octet. -/
def onesInOctet (o : Nat) : Nat := ((List.range 8).map (fun i => o / 2 ^ i % 2)).sum

/-- The count by the stop-at-first-irregular-byte policy: the 1-bits of the
octets before the first octet that is not a `regularByte`. -/
def stopSum : List Nat → Nat
  | [] => 0
  | o :: os => if regularByte o then onesInOctet o + stopSum os else 0

/-- The 32-bit mask value formed by four octets in order, the first octet most
significant. -/
def mask32 (o0 o1 o2 o3 : Nat) : Nat := o0 * 2 ^ 24 + o1 * 2 ^ 16 + o2 * 2 ^ 8 + o3

/-- The bits of a `w`-bit value, most significant first. -/
def bitsOf (w m : Nat) : List Bool :=
  (List.range w).map (fun i => decide (m / 2 ^ (w - 1 - i) % 2 = 1))

/-- The count of leading contiguous 1-bits of a `w`-bit value. -/
def leadingOnes (w m : Nat) : Nat := ((bitsOf w m).takeWhile id).length

/-- Whether the policy count of a list of octets equals the count of leading
1-bits of the mask they form: the first octet other than 255, if there is one,
is below 128, or is one of the eight mask bytes and is the last octet or is
followed by an octet that is not one of them. -/
def agreesWithPrefix : List Nat → Bool
  | [] => true
  | o :: rest =>
    if o = 255 then agreesWithPrefix rest
    else if regularByte o then
      (match rest with
        | [] => true
        | o1 :: _ => !regularByte o1)
    else decide (o < 128)

/-- The bits of a list of octets, each most significant bit first (auxiliary). -/
def octetsBits : List Nat → List Bool
  | [] => []
  | o :: os => bitsOf 8 o ++ octetsBits os

/-- The value of a list of bytes read as a big-endian unsigned integer. -/
def beValue (bytes : List Nat) : Nat := bytes.foldl (fun acc b => acc * 256 + b) 0

/-- The colon-hex text of a list of bytes from a position inside the layout
(auxiliary): the flag tells whether the next byte is the second of its
group, after which a colon follows unless the bytes end. -/
def textFrom : Bool → List Nat → List Char
  | _, [] => []
  | false, b :: bs => hexPair b ++ textFrom true bs
  | true, b :: bs => hexPair b ++ (if bs = [] then [] else ':' :: textFrom false bs)

/-! ## Theorems -/

/-! ### The tokeniser -/

theorem isDigit_ne_dot {c : Char} (h : c.isDigit = true) : c ≠ '.' := by
  rintro rfl
  revert h
  decide

theorem strtok_nil : strtok [] = (none, []) := rfl

theorem strtok_token_dot (t rest : List Char) (ht : t ≠ []) (hd : ∀ c ∈ t, c ≠ '.') :
    strtok (t ++ '.' :: rest) = (some t, rest) := by
  cases t with
  | nil => exact absurd rfl ht
  | cons c cs =>
    have hc : c ≠ '.' := hd c (List.mem_cons_self _ _)
    have hp : ∀ a ∈ c :: cs, (fun d : Char => d != '.') a = true := by
      intro a ha
      simpa using hd a ha
    have h1 : (c :: cs ++ '.' :: rest).dropWhile (fun c => c == '.')
        = c :: (cs ++ '.' :: rest) := by
      simp [List.dropWhile_cons, hc]
    unfold strtok
    rw [h1]
    have h2 : (c :: (cs ++ '.' :: rest)) = (c :: cs) ++ '.' :: rest := rfl
    simp only [h2]
    rw [List.takeWhile_append_of_pos hp, List.dropWhile_append_of_pos hp]
    simp

theorem strtok_last (t : List Char) (ht : t ≠ []) (hd : ∀ c ∈ t, c ≠ '.') :
    strtok t = (some t, []) := by
  have h := strtok_token_dot t [] ht hd
  cases t with
  | nil => exact absurd rfl ht
  | cons c cs =>
    have hc : c ≠ '.' := hd c (List.mem_cons_self _ _)
    have hp : ∀ a ∈ c :: cs, (fun d : Char => d != '.') a = true := by
      intro a ha
      simpa using hd a ha
    have h1 : (c :: cs).dropWhile (fun c => c == '.') = c :: cs := by
      simp [List.dropWhile_cons, hc]
    unfold strtok
    rw [h1]
    simp only
    rw [List.takeWhile_eq_self_iff.2 hp, List.dropWhile_eq_nil_iff.2 hp]
    rfl

/-! ### `atoi` on digit strings -/

theorem strtolDigits_eq_foldl (t : List Char) (h : ∀ c ∈ t, c.isDigit = true) (acc : Nat) :
    strtolDigits acc t = t.foldl (fun acc c => acc * 10 + (c.toNat - 48)) acc := by
  induction t generalizing acc with
  | nil => rfl
  | cons c cs ih =>
    have hc : c.isDigit = true := h c (List.mem_cons_self _ _)
    simp only [strtolDigits, hc, if_true, List.foldl_cons]
    exact ih (fun d hd => h d (List.mem_cons_of_mem _ hd)) _

theorem isDigit_not_space {c : Char} (h : c.isDigit = true) : isspace c = false := by
  simp only [Char.isDigit, Bool.and_eq_true, decide_eq_true_eq] at h
  have h1 : 48 ≤ c.toNat := by
    have := h.1
    exact this
  simp [isspace]
  omega

theorem strtol_digits (t : List Char) (h : IsDigits t) :
    strtol t = min LONG_MAX (decValue t : Int) := by
  obtain ⟨hne, hd⟩ := h
  cases t with
  | nil => exact absurd rfl hne
  | cons c cs =>
    have hc : c.isDigit = true := hd c (List.mem_cons_self _ _)
    have hs : (c :: cs).dropWhile isspace = c :: cs := by
      simp [List.dropWhile_cons, isDigit_not_space hc]
    have hm : c ≠ '-' := by rintro rfl; revert hc; decide
    have hp : c ≠ '+' := by rintro rfl; revert hc; decide
    unfold strtol
    rw [hs]
    split
    · rename_i r heq
      injection heq with h1 h2
      exact absurd h1 hm
    · rename_i r heq
      injection heq with h1 h2
      exact absurd h1 hp
    · rw [strtolDigits_eq_foldl _ hd]
      rfl

theorem atoi_digits (t : List Char) (h : IsDigits t) (hv : decValue t < 2 ^ 31) :
    atoi t = (decValue t : Int) := by
  unfold atoi
  rw [strtol_digits t h]
  unfold LONG_MAX toInt32
  have : (decValue t : Int) < 2 ^ 31 := by exact_mod_cast hv
  have h0 : (0 : Int) ≤ decValue t := Int.ofNat_nonneg _
  norm_num at this ⊢
  omega

/-! ### The `%d` conversion -/

theorem digitChar_lt_ten (d : Nat) (h : d < 10) :
    (Nat.digitChar d).isDigit = true ∧ (Nat.digitChar d).toNat = d + 48 := by
  interval_cases d <;> decide

theorem natDigits_isDigit (fuel n : Nat) : ∀ c ∈ natDigits 10 fuel n, c.isDigit = true := by
  induction fuel generalizing n with
  | zero => intro c hc; simp [natDigits] at hc
  | succ f ih =>
    intro c hc
    unfold natDigits at hc
    split at hc
    · rename_i hlt
      simp only [List.mem_singleton] at hc
      subst hc
      exact (digitChar_lt_ten n hlt).1
    · rcases List.mem_append.1 hc with h1 | h1
      · exact ih _ c h1
      · simp only [List.mem_singleton] at h1
        subst h1
        exact (digitChar_lt_ten _ (Nat.mod_lt _ (by decide))).1

theorem decValue_append_single (xs : List Char) (c : Char) :
    decValue (xs ++ [c]) = decValue xs * 10 + (c.toNat - 48) := by
  simp [decValue, List.foldl_append]

theorem decValue_single (c : Char) : decValue [c] = c.toNat - 48 := by
  simp [decValue]

theorem natDigits_value (fuel n : Nat) (h : n < 10 ^ fuel) :
    decValue (natDigits 10 fuel n) = n := by
  induction fuel generalizing n with
  | zero =>
    have : n = 0 := by simpa using h
    subst this
    rfl
  | succ f ih =>
    unfold natDigits
    split
    · rename_i hlt
      rw [decValue_single, (digitChar_lt_ten n hlt).2]
      omega
    · have hdiv : n / 10 < 10 ^ f := by
        apply Nat.div_lt_of_lt_mul
        rw [pow_succ] at h
        omega
      rw [decValue_append_single, ih _ hdiv, (digitChar_lt_ten _ (Nat.mod_lt _ (by decide))).2]
      omega

theorem natDigits_ne_nil (fuel n : Nat) (h : 0 < fuel) : natDigits 10 fuel n ≠ [] := by
  cases fuel with
  | zero => omega
  | succ f =>
    unfold natDigits
    split <;> simp

theorem natDigits_zero_head (fuel n : Nat) (h : n < 10 ^ fuel) (ys : List Char)
    (hys : natDigits 10 fuel n = '0' :: ys) : n = 0 := by
  induction fuel generalizing n ys with
  | zero => simp [natDigits] at hys
  | succ f ih =>
    unfold natDigits at hys
    split at hys
    · rename_i hlt
      have h1 : Nat.digitChar n = '0' := by
        injection hys
      have h2 := (digitChar_lt_ten n hlt).2
      rw [h1] at h2
      have h3 : ('0' : Char).toNat = 48 := by decide
      omega
    · rename_i hge
      exfalso
      have hdiv : n / 10 < 10 ^ f := by
        apply Nat.div_lt_of_lt_mul
        rw [pow_succ] at h
        omega
      have hpos : 0 < f := by
        rcases Nat.eq_zero_or_pos f with h0 | h0
        · subst h0
          simp at hdiv
          omega
        · exact h0
      have hne := natDigits_ne_nil f (n / 10) hpos
      cases hl : natDigits 10 f (n / 10) with
      | nil => exact hne hl
      | cons x xs =>
        rw [hl] at hys
        simp only [List.cons_append, List.cons.injEq] at hys
        have := ih (n / 10) hdiv xs (by rw [hl, hys.1])
        omega

theorem natDigits_head (fuel n : Nat) (h : n < 10 ^ fuel) :
    (natDigits 10 fuel n).head? = some '0' → natDigits 10 fuel n = ['0'] := by
  intro hh
  cases hl : natDigits 10 fuel n with
  | nil => rw [hl] at hh; simp at hh
  | cons x xs =>
    rw [hl] at hh
    simp only [List.head?_cons, Option.some.injEq] at hh
    subst hh
    have h0 := natDigits_zero_head fuel n h xs hl
    subst h0
    cases fuel with
    | zero => simp [natDigits] at hl
    | succ f =>
      unfold natDigits at hl
      simp only [Nat.lt_irrefl, Nat.zero_lt_succ, if_true] at hl
      rw [← hl]
      rfl

theorem fmtD_ofNat (n : Nat) : fmtD (n : Int) = natDigits 10 10 n := by
  unfold fmtD
  have : ¬ ((n : Int) < 0) := by omega
  rw [if_neg this]
  simp

theorem fmtD_canonical (n : Nat) (h : n < 10 ^ 10) : IsCanonicalDec (fmtD (n : Int)) n := by
  rw [fmtD_ofNat]
  exact ⟨⟨natDigits_ne_nil 10 n (by decide), natDigits_isDigit 10 n⟩,
    natDigits_value 10 n h, natDigits_head 10 n h⟩

theorem natDigits_length (n : Nat) :
    (natDigits 10 10 n).length =
      if n < 10 then 1 else if n < 100 then 2 else if n < 1000 then 3
      else (natDigits 10 7 (n / 1000)).length + 3 := by
  have e10 : (10 : Nat) = 9 + 1 := rfl
  have e9 : (9 : Nat) = 8 + 1 := rfl
  have e8 : (8 : Nat) = 7 + 1 := rfl
  by_cases h1 : n < 10
  · rw [if_pos h1]
    conv_lhs => rw [e10]; unfold natDigits
    rw [if_pos h1]
    rfl
  · rw [if_neg h1]
    conv_lhs => rw [e10]; unfold natDigits
    rw [if_neg h1]
    by_cases h2 : n < 100
    · rw [if_pos h2]
      have : n / 10 < 10 := by omega
      conv_lhs => rw [e9]; unfold natDigits
      rw [if_pos this]
      rfl
    · rw [if_neg h2]
      have : ¬ n / 10 < 10 := by omega
      conv_lhs => rw [e9]; unfold natDigits
      rw [if_neg this]
      by_cases h3 : n < 1000
      · rw [if_pos h3]
        have : n / 10 / 10 < 10 := by omega
        conv_lhs => rw [e8]; unfold natDigits
        rw [if_pos this]
        rfl
      · rw [if_neg h3]
        have : ¬ n / 10 / 10 < 10 := by omega
        conv_lhs => rw [e8]; unfold natDigits
        rw [if_neg this]
        have e : n / 10 / 10 / 10 = n / 1000 := by omega
        simp [e]

/-! ### The tokenising loops on four digit tokens -/

theorem IsDigits.no_dot {t : List Char} (h : IsDigits t) : ∀ c ∈ t, c ≠ '.' :=
  fun c hc => isDigit_ne_dot (h.2 c hc)

theorem tokenLoop_joinDots (t0 t1 t2 t3 : List Char)
    (h0 : IsDigits t0) (h1 : IsDigits t1) (h2 : IsDigits t2) (h3 : IsDigits t3)
    (v0 : decValue t0 < 2 ^ 31) (v1 : decValue t1 < 2 ^ 31)
    (v2 : decValue t2 < 2 ^ 31) (v3 : decValue t3 < 2 ^ 31) :
    tokenLoop 5 (strtok (joinDots t0 t1 t2 t3)).1 (strtok (joinDots t0 t1 t2 t3)).2 0 freshInts
      = .ok [some (decValue t0 : Int), some (decValue t1 : Int),
          some (decValue t2 : Int), some (decValue t3 : Int)] := by
  unfold joinDots
  rw [strtok_token_dot t0 _ h0.1 h0.no_dot]
  simp only [tokenLoop, storeInt, freshInts, List.length_cons, List.length_nil,
    strtok_token_dot t1 _ h1.1 h1.no_dot, strtok_token_dot t2 _ h2.1 h2.no_dot,
    strtok_last t3 h3.1 h3.no_dot, strtok_nil,
    atoi_digits t0 h0 v0, atoi_digits t1 h1 v1, atoi_digits t2 h2 v2, atoi_digits t3 h3 v3]
  simp

theorem width_step (s v : Nat) :
    (if (v : Int) < 10 then s + 1 else if (v : Int) < 100 then s + 2 else s + 3)
      = s + digitWidth v := by
  unfold digitWidth
  have e1 : ((v : Int) < 10) ↔ v < 10 := by omega
  have e2 : ((v : Int) < 100) ↔ v < 100 := by omega
  simp only [e1, e2]
  split_ifs <;> rfl

theorem widthLoop_succ (n : Nat) (tok saved : List Char) (i : Nat) (a : IntArray) (s : Nat)
    (h : IsDigits tok) (hv : decValue tok < 2 ^ 31) (hi : i < a.length) :
    widthLoop (n + 1) (some tok) saved i a s =
      widthLoop n (strtok saved).1 (strtok saved).2 (i + 1)
        (a.set i (some (decValue tok : Int))) (s + digitWidth (decValue tok)) := by
  rw [widthLoop]
  simp only [storeInt, hi, if_true, atoi_digits tok h hv, bind, Except.bind, loadInt,
    List.getElem?_set_self hi, width_step]

theorem widthLoop_joinDots (t0 t1 t2 t3 : List Char)
    (h0 : IsDigits t0) (h1 : IsDigits t1) (h2 : IsDigits t2) (h3 : IsDigits t3)
    (v0 : decValue t0 < 2 ^ 31) (v1 : decValue t1 < 2 ^ 31)
    (v2 : decValue t2 < 2 ^ 31) (v3 : decValue t3 < 2 ^ 31) :
    widthLoop 4 (strtok (joinDots t0 t1 t2 t3)).1 (strtok (joinDots t0 t1 t2 t3)).2 0 freshInts 3
      = .ok ([some (decValue t0 : Int), some (decValue t1 : Int),
          some (decValue t2 : Int), some (decValue t3 : Int)],
          3 + digitWidth (decValue t0) + digitWidth (decValue t1) + digitWidth (decValue t2)
            + digitWidth (decValue t3)) := by
  unfold joinDots
  rw [strtok_token_dot t0 _ h0.1 h0.no_dot]
  rw [widthLoop_succ 3 t0 _ 0 _ _ h0 v0 (by decide), strtok_token_dot t1 _ h1.1 h1.no_dot]
  rw [widthLoop_succ 2 t1 _ _ _ _ h1 v1 (by simp [freshInts]),
    strtok_token_dot t2 _ h2.1 h2.no_dot]
  rw [widthLoop_succ 1 t2 _ _ _ _ h2 v2 (by simp [freshInts]), strtok_last t3 h3.1 h3.no_dot]
  rw [widthLoop_succ 0 t3 _ _ _ _ h3 v3 (by simp [freshInts])]
  rfl

/-! ### Formatting four octets -/

theorem land_ofNat (a m : Nat) : Int.land (a : Int) (m : Int) = ((a &&& m : Nat) : Int) := rfl

theorem fmtD_length (n : Nat) (h : n < 1000) : (fmtD (n : Int)).length = digitWidth n := by
  rw [fmtD_ofNat, natDigits_length]
  unfold digitWidth
  split_ifs <;> rfl

theorem dotted4_eq_joinDots (a b c d : Int) :
    dotted4 a b c d = joinDots (fmtD a) (fmtD b) (fmtD c) (fmtD d) := rfl

theorem dotted4_length (a b c d : Int) :
    (dotted4 a b c d).length =
      3 + (fmtD a).length + (fmtD b).length + (fmtD c).length + (fmtD d).length := by
  simp [dotted4]
  omega

theorem sprintfDotted_four (cap : Nat) (a b c d : Int) :
    sprintfDotted cap [some a, some b, some c, some d] = sprintfInto cap (dotted4 a b c d) := rfl

theorem andLoop_four (a0 a1 a2 a3 m0 m1 m2 m3 : Int) :
    andLoop 4 0 [some a0, some a1, some a2, some a3] [some m0, some m1, some m2, some m3]
        freshInts
      = .ok [some (Int.land a0 m0), some (Int.land a1 m1), some (Int.land a2 m2),
          some (Int.land a3 m3)] := rfl

theorem digitWidth_le (n : Nat) : digitWidth n ≤ 3 := by
  unfold digitWidth
  split_ifs <;> omega



theorem formatIPv4Address_joinDots (t0 t1 t2 t3 : List Char)
    (h0 : IsDigits t0) (h1 : IsDigits t1) (h2 : IsDigits t2) (h3 : IsDigits t3)
    (v0 : decValue t0 < 1000) (v1 : decValue t1 < 1000)
    (v2 : decValue t2 < 1000) (v3 : decValue t3 < 1000) :
    formatIPv4Address (joinDots t0 t1 t2 t3) =
      .ok { text := dotted4 (decValue t0) (decValue t1) (decValue t2) (decValue t3),
            reallocTo := some (3 + digitWidth (decValue t0) + digitWidth (decValue t1)
              + digitWidth (decValue t2) + digitWidth (decValue t3) + 1) } := by
  unfold formatIPv4Address
  rw [widthLoop_joinDots t0 t1 t2 t3 h0 h1 h2 h3 (by omega) (by omega) (by omega) (by omega)]
  simp only [bind, Except.bind, sprintfDotted_four, sprintfInto]
  rw [if_pos]
  · rfl
  · rw [dotted4_length, fmtD_length _ v0, fmtD_length _ v1, fmtD_length _ v2, fmtD_length _ v3]


/-! ### `strcmp` and the injectivity of the dotted format -/

theorem char_toNat_inj {a b : Char} (h : a.toNat = b.toNat) : a = b := by
  rw [← Char.ofNat_toNat a, ← Char.ofNat_toNat b, h]

theorem strcmp_self (a : List Char) : strcmp a a = 0 := by
  induction a with
  | nil => rfl
  | cons c cs ih => simp [strcmp, ih]

theorem strcmp_eq_zero (a b : List Char) (ha : ∀ c ∈ a, c.toNat ≠ 0)
    (hb : ∀ c ∈ b, c.toNat ≠ 0)
    (h : strcmp a b = 0) : a = b := by
  induction a generalizing b with
  | nil =>
    cases b with
    | nil => rfl
    | cons d ds =>
      exfalso
      have := hb d (List.mem_cons_self _ _)
      simp only [strcmp] at h
      omega
  | cons c cs ih =>
    cases b with
    | nil =>
      exfalso
      have := ha c (List.mem_cons_self _ _)
      simp only [strcmp] at h
      omega
    | cons d ds =>
      simp only [strcmp] at h
      by_cases hcd : c = d
      · rw [if_pos hcd] at h
        rw [hcd, ih ds (fun x hx => ha x (List.mem_cons_of_mem _ hx))
          (fun x hx => hb x (List.mem_cons_of_mem _ hx)) h]
      · rw [if_neg hcd] at h
        exact absurd (char_toNat_inj (by omega)) hcd

theorem append_dot_cancel (x y r s : List Char) (hx : ∀ c ∈ x, c ≠ '.')
    (hy : ∀ c ∈ y, c ≠ '.')
    (h : x ++ '.' :: r = y ++ '.' :: s) : x = y ∧ r = s := by
  induction x generalizing y with
  | nil =>
    cases y with
    | nil => simpa using h
    | cons d ds =>
      exfalso
      simp only [List.nil_append, List.cons_append, List.cons.injEq] at h
      exact hy d (List.mem_cons_self _ _) h.1.symm
  | cons c cs ih =>
    cases y with
    | nil =>
      exfalso
      simp only [List.nil_append, List.cons_append, List.cons.injEq] at h
      exact hx c (List.mem_cons_self _ _) h.1
    | cons d ds =>
      simp only [List.cons_append, List.cons.injEq] at h
      obtain ⟨e1, e2⟩ := ih ds (fun z hz => hx z (List.mem_cons_of_mem _ hz))
        (fun z hz => hy z (List.mem_cons_of_mem _ hz)) h.2
      exact ⟨by rw [h.1, e1], e2⟩

theorem joinDots_inj (a0 a1 a2 a3 b0 b1 b2 b3 : List Char)
    (ha0 : ∀ c ∈ a0, c ≠ '.') (ha1 : ∀ c ∈ a1, c ≠ '.') (ha2 : ∀ c ∈ a2, c ≠ '.')
    (hb0 : ∀ c ∈ b0, c ≠ '.') (hb1 : ∀ c ∈ b1, c ≠ '.') (hb2 : ∀ c ∈ b2, c ≠ '.')
    (h : joinDots a0 a1 a2 a3 = joinDots b0 b1 b2 b3) :
    a0 = b0 ∧ a1 = b1 ∧ a2 = b2 ∧ a3 = b3 := by
  unfold joinDots at h
  obtain ⟨e0, h⟩ := append_dot_cancel _ _ _ _ ha0 hb0 h
  obtain ⟨e1, h⟩ := append_dot_cancel _ _ _ _ ha1 hb1 h
  obtain ⟨e2, h⟩ := append_dot_cancel _ _ _ _ ha2 hb2 h
  exact ⟨e0, e1, e2, h⟩

theorem fmtD_digits (n : Nat) : ∀ c ∈ fmtD (n : Int), c.isDigit = true := by
  rw [fmtD_ofNat]
  exact natDigits_isDigit 10 n

theorem fmtD_inj (m n : Nat) (hm : m < 10 ^ 10) (hn : n < 10 ^ 10)
    (h : fmtD (m : Int) = fmtD (n : Int)) : m = n := by
  have e1 := (fmtD_canonical m hm).2.1
  have e2 := (fmtD_canonical n hn).2.1
  rw [h] at e1
  omega

theorem isDigit_toNat_ne_zero {c : Char} (h : c.isDigit = true) : c.toNat ≠ 0 := by
  simp only [Char.isDigit, Bool.and_eq_true, decide_eq_true_eq] at h
  have h1 : 48 ≤ c.toNat := h.1
  omega

theorem dotted4_no_nul (a b c d : Nat) :
    ∀ x ∈ dotted4 (a : Int) (b : Int) (c : Int) (d : Int), x.toNat ≠ 0 := by
  intro x hx
  simp only [dotted4, List.mem_append, List.mem_cons] at hx
  have hdot : ('.' : Char).toNat ≠ 0 := by decide
  rcases hx with h | h | h | h | h | h | h
  · exact isDigit_toNat_ne_zero (fmtD_digits a x h)
  · rw [h]; exact hdot
  · exact isDigit_toNat_ne_zero (fmtD_digits b x h)
  · rw [h]; exact hdot
  · exact isDigit_toNat_ne_zero (fmtD_digits c x h)
  · rw [h]; exact hdot
  · exact isDigit_toNat_ne_zero (fmtD_digits d x h)

theorem dotted4_inj (a0 a1 a2 a3 b0 b1 b2 b3 : Nat)
    (ha0 : a0 < 10 ^ 10) (ha1 : a1 < 10 ^ 10) (ha2 : a2 < 10 ^ 10) (ha3 : a3 < 10 ^ 10)
    (hb0 : b0 < 10 ^ 10) (hb1 : b1 < 10 ^ 10) (hb2 : b2 < 10 ^ 10) (hb3 : b3 < 10 ^ 10)
    (h : dotted4 (a0 : Int) (a1 : Int) (a2 : Int) (a3 : Int)
      = dotted4 (b0 : Int) (b1 : Int) (b2 : Int) (b3 : Int)) :
    a0 = b0 ∧ a1 = b1 ∧ a2 = b2 ∧ a3 = b3 := by
  rw [dotted4_eq_joinDots, dotted4_eq_joinDots] at h
  have nd : ∀ n : Nat, ∀ c ∈ fmtD (n : Int), c ≠ '.' :=
    fun n c hc => isDigit_ne_dot (fmtD_digits n c hc)
  obtain ⟨e0, e1, e2, e3⟩ := joinDots_inj _ _ _ _ _ _ _ _ (nd a0) (nd a1) (nd a2)
    (nd b0) (nd b1) (nd b2) h
  exact ⟨fmtD_inj _ _ ha0 hb0 e0, fmtD_inj _ _ ha1 hb1 e1, fmtD_inj _ _ ha2 hb2 e2,
    fmtD_inj _ _ ha3 hb3 e3⟩

/-! ### Hexadecimal pairs and the bytes of an address -/

theorem fmt02x_byte (b : Nat) (h : b < 256) : fmt02x b = hexPair b := by
  interval_cases b <;> rfl

theorem lowerHex_ne_colon (d : Nat) : lowerHex d ≠ ':' := by
  by_cases h : d < 16
  · interval_cases d <;> decide
  · have : lowerHex d = '?' := by
      unfold lowerHex
      rw [List.getD_eq_default]
      simp only [String.toList]
      exact Nat.le_of_not_lt h
    rw [this]
    decide

theorem list_sixteen (l : List Nat) (hl : l.length = 16) :
    ∃ b0 b1 b2 b3 b4 b5 b6 b7 b8 b9 b10 b11 b12 b13 b14 b15 : Nat,
      l = [b0, b1, b2, b3, b4, b5, b6, b7, b8, b9, b10, b11, b12, b13, b14, b15] := by
  rcases l with _ | ⟨b0, _ | ⟨b1, _ | ⟨b2, _ | ⟨b3, _ | ⟨b4, _ | ⟨b5, _ | ⟨b6, _ | ⟨b7, _ | ⟨b8,
    _ | ⟨b9, _ | ⟨b10, _ | ⟨b11, _ | ⟨b12, _ | ⟨b13, _ | ⟨b14, _ | ⟨b15, _ | ⟨c,
    l⟩⟩⟩⟩⟩⟩⟩⟩⟩⟩⟩⟩⟩⟩⟩⟩⟩
  all_goals try (simp at hl)
  exact ⟨_, _, _, _, _, _, _, _, _, _, _, _, _, _, _, _, rfl⟩

theorem in6_addr.bytes (a : in6_addr) :
    ∃ b0 b1 b2 b3 b4 b5 b6 b7 b8 b9 b10 b11 b12 b13 b14 b15 : Nat,
      a.s6_addr = [b0, b1, b2, b3, b4, b5, b6, b7, b8, b9, b10, b11, b12, b13, b14, b15] ∧
      b0 < 256 ∧ b1 < 256 ∧ b2 < 256 ∧ b3 < 256 ∧ b4 < 256 ∧ b5 < 256 ∧ b6 < 256 ∧ b7 < 256 ∧
      b8 < 256 ∧ b9 < 256 ∧ b10 < 256 ∧ b11 < 256 ∧ b12 < 256 ∧ b13 < 256 ∧ b14 < 256 ∧ b15 < 256 := by
  obtain ⟨l, hl, hb⟩ := a
  obtain ⟨b0, b1, b2, b3, b4, b5, b6, b7, b8, b9, b10, b11, b12, b13, b14, b15, rfl⟩ :=
    list_sixteen l hl
  refine ⟨b0, b1, b2, b3, b4, b5, b6, b7, b8, b9, b10, b11, b12, b13, b14, b15, rfl, ?_⟩
  simpa using hb

theorem expandedText_eq (a : in6_addr) : expandedText a = .ok (expandedForm a.s6_addr) := by
  obtain ⟨b0, b1, b2, b3, b4, b5, b6, b7, b8, b9, b10, b11, b12, b13, b14, b15, hl, hb0, hb1, hb2,
      hb3, hb4, hb5, hb6, hb7, hb8, hb9, hb10, hb11, hb12, hb13, hb14, hb15⟩ := a.bytes
  unfold expandedText
  simp only [loadByte, hl, bind, Except.bind, pure, Except.pure]
  simp [fmt02x_byte, hb0, hb1, hb2, hb3, hb4, hb5, hb6, hb7, hb8, hb9, hb10, hb11, hb12, hb13,
      hb14, hb15, expandedForm, hexGroups, List.intercalate]

theorem expandedForm_length (a : in6_addr) : (expandedForm a.s6_addr).length = 39 := by
  obtain ⟨b0, b1, b2, b3, b4, b5, b6, b7, b8, b9, b10, b11, b12, b13, b14, b15, hl, hb0, hb1, hb2,
      hb3, hb4, hb5, hb6, hb7, hb8, hb9, hb10, hb11, hb12, hb13, hb14, hb15⟩ := a.bytes
  rw [hl]
  rfl

theorem formatIPv6Address_parsed (inet_pton : Ipv6Parse) (s : List Char) (a : in6_addr)
    (h : inet_pton s = some a) :
    formatIPv6Address inet_pton s =
      .ok { text := expandedForm a.s6_addr, reallocTo := some 40 } := by
  unfold formatIPv6Address
  rw [h]
  simp only [expandedText_eq, bind, Except.bind, sprintfInto, expandedForm_length]
  rfl

theorem lowerHex_toNat_ne_zero (d : Nat) : (lowerHex d).toNat ≠ 0 := by
  by_cases h : d < 16
  · interval_cases d <;> decide
  · have : lowerHex d = '?' := by
      unfold lowerHex
      rw [List.getD_eq_default]
      simp only [String.toList]
      exact Nat.le_of_not_lt h
    rw [this]
    decide

theorem lowerHex_inj (d e : Nat) (hd : d < 16) (he : e < 16) (h : lowerHex d = lowerHex e) :
    d = e := by
  have key : ∀ x, x < 16 → (lowerHex x).toNat = if x < 10 then x + 48 else x + 87 := by
    intro x hx
    interval_cases x <;> rfl
  have h1 := key d hd
  have h2 := key e he
  rw [h] at h1
  rw [h1] at h2
  split_ifs at h2 <;> omega

theorem byte_eq_of_lowerHex (x y : Nat) (hx : x < 256) (hy : y < 256)
    (h1 : lowerHex (x / 16) = lowerHex (y / 16)) (h2 : lowerHex (x % 16) = lowerHex (y % 16)) :
    x = y := by
  have e1 := lowerHex_inj _ _ (by omega) (by omega) h1
  have e2 := lowerHex_inj _ _ (Nat.mod_lt _ (by decide)) (Nat.mod_lt _ (by decide)) h2
  omega

theorem expandedForm_sixteen (b0 b1 b2 b3 b4 b5 b6 b7 b8 b9 b10 b11 b12 b13 b14 b15 : Nat) :
    expandedForm [b0, b1, b2, b3, b4, b5, b6, b7, b8, b9, b10, b11, b12, b13, b14, b15] =
      [lowerHex (b0 / 16), lowerHex (b0 % 16), lowerHex (b1 / 16), lowerHex (b1 % 16), ':',
        lowerHex (b2 / 16), lowerHex (b2 % 16), lowerHex (b3 / 16), lowerHex (b3 % 16), ':',
        lowerHex (b4 / 16), lowerHex (b4 % 16), lowerHex (b5 / 16), lowerHex (b5 % 16), ':',
        lowerHex (b6 / 16), lowerHex (b6 % 16), lowerHex (b7 / 16), lowerHex (b7 % 16), ':',
        lowerHex (b8 / 16), lowerHex (b8 % 16), lowerHex (b9 / 16), lowerHex (b9 % 16), ':',
        lowerHex (b10 / 16), lowerHex (b10 % 16), lowerHex (b11 / 16), lowerHex (b11 % 16),
        ':', lowerHex (b12 / 16), lowerHex (b12 % 16), lowerHex (b13 / 16),
        lowerHex (b13 % 16), ':', lowerHex (b14 / 16), lowerHex (b14 % 16),
        lowerHex (b15 / 16), lowerHex (b15 % 16)] := rfl

theorem expandedForm_no_nul (a : in6_addr) : ∀ c ∈ expandedForm a.s6_addr, c.toNat ≠ 0 := by
  obtain ⟨b0, b1, b2, b3, b4, b5, b6, b7, b8, b9, b10, b11, b12, b13, b14, b15, hl, hb0, hb1, hb2,
      hb3, hb4, hb5, hb6, hb7, hb8, hb9, hb10, hb11, hb12, hb13, hb14, hb15⟩ := a.bytes
  rw [hl, expandedForm_sixteen]
  have hcolon : (':' : Char).toNat ≠ 0 := by decide
  intro c hc
  simp only [List.mem_cons, List.not_mem_nil, or_false] at hc
  rcases hc with hc | hc | hc | hc | hc | hc | hc | hc | hc | hc | hc | hc | hc | hc | hc | hc |
      hc | hc | hc | hc | hc | hc | hc | hc | hc | hc | hc | hc | hc | hc | hc | hc | hc | hc |
      hc | hc | hc | hc | hc
  all_goals first
    | (rw [hc]; exact lowerHex_toNat_ne_zero _)
    | (rw [hc]; exact hcolon)

theorem expandedForm_inj (a b : in6_addr) (h : expandedForm a.s6_addr = expandedForm b.s6_addr) :
    a = b := by
  obtain ⟨b0, b1, b2, b3, b4, b5, b6, b7, b8, b9, b10, b11, b12, b13, b14, b15, hl, hb0, hb1, hb2,
      hb3, hb4, hb5, hb6, hb7, hb8, hb9, hb10, hb11, hb12, hb13, hb14, hb15⟩ := a.bytes
  obtain ⟨c0, c1, c2, c3, c4, c5, c6, c7, c8, c9, c10, c11, c12, c13, c14, c15, hlc, hc0, hc1,
      hc2,
      hc3, hc4, hc5, hc6, hc7, hc8, hc9, hc10, hc11, hc12, hc13, hc14, hc15⟩ := b.bytes
  rw [hl, hlc, expandedForm_sixteen, expandedForm_sixteen] at h
  have e : a.s6_addr = b.s6_addr := by
    rw [hl, hlc]
    have e0 : b0 = c0 := byte_eq_of_lowerHex _ _ hb0 hc0
      (congrArg (fun l => l.getD 0 ' ') h) (congrArg (fun l => l.getD 1 ' ') h)
    have e1 : b1 = c1 := byte_eq_of_lowerHex _ _ hb1 hc1
      (congrArg (fun l => l.getD 2 ' ') h) (congrArg (fun l => l.getD 3 ' ') h)
    have e2 : b2 = c2 := byte_eq_of_lowerHex _ _ hb2 hc2
      (congrArg (fun l => l.getD 5 ' ') h) (congrArg (fun l => l.getD 6 ' ') h)
    have e3 : b3 = c3 := byte_eq_of_lowerHex _ _ hb3 hc3
      (congrArg (fun l => l.getD 7 ' ') h) (congrArg (fun l => l.getD 8 ' ') h)
    have e4 : b4 = c4 := byte_eq_of_lowerHex _ _ hb4 hc4
      (congrArg (fun l => l.getD 10 ' ') h) (congrArg (fun l => l.getD 11 ' ') h)
    have e5 : b5 = c5 := byte_eq_of_lowerHex _ _ hb5 hc5
      (congrArg (fun l => l.getD 12 ' ') h) (congrArg (fun l => l.getD 13 ' ') h)
    have e6 : b6 = c6 := byte_eq_of_lowerHex _ _ hb6 hc6
      (congrArg (fun l => l.getD 15 ' ') h) (congrArg (fun l => l.getD 16 ' ') h)
    have e7 : b7 = c7 := byte_eq_of_lowerHex _ _ hb7 hc7
      (congrArg (fun l => l.getD 17 ' ') h) (congrArg (fun l => l.getD 18 ' ') h)
    have e8 : b8 = c8 := byte_eq_of_lowerHex _ _ hb8 hc8
      (congrArg (fun l => l.getD 20 ' ') h) (congrArg (fun l => l.getD 21 ' ') h)
    have e9 : b9 = c9 := byte_eq_of_lowerHex _ _ hb9 hc9
      (congrArg (fun l => l.getD 22 ' ') h) (congrArg (fun l => l.getD 23 ' ') h)
    have e10 : b10 = c10 := byte_eq_of_lowerHex _ _ hb10 hc10
      (congrArg (fun l => l.getD 25 ' ') h) (congrArg (fun l => l.getD 26 ' ') h)
    have e11 : b11 = c11 := byte_eq_of_lowerHex _ _ hb11 hc11
      (congrArg (fun l => l.getD 27 ' ') h) (congrArg (fun l => l.getD 28 ' ') h)
    have e12 : b12 = c12 := byte_eq_of_lowerHex _ _ hb12 hc12
      (congrArg (fun l => l.getD 30 ' ') h) (congrArg (fun l => l.getD 31 ' ') h)
    have e13 : b13 = c13 := byte_eq_of_lowerHex _ _ hb13 hc13
      (congrArg (fun l => l.getD 32 ' ') h) (congrArg (fun l => l.getD 33 ' ') h)
    have e14 : b14 = c14 := byte_eq_of_lowerHex _ _ hb14 hc14
      (congrArg (fun l => l.getD 35 ' ') h) (congrArg (fun l => l.getD 36 ' ') h)
    have e15 : b15 = c15 := byte_eq_of_lowerHex _ _ hb15 hc15
      (congrArg (fun l => l.getD 37 ' ') h) (congrArg (fun l => l.getD 38 ' ') h)
    rw [e0, e1, e2, e3, e4, e5, e6, e7, e8, e9, e10, e11, e12, e13, e14, e15]
  cases a
  cases b
  simp only at e
  subst e
  rfl

/-! ### The loops of `getIpv6NetworkAddress` -/

theorem addrPartOf_byte (b : Nat) (h : b < 256) : addrPartOf b = .ok (hexCells b) := by
  unfold addrPartOf
  rw [fmt02x_byte b h]
  rfl

theorem loadByte_lt (a : in6_addr) (k b : Nat) (h : loadByte a k = .ok b) : b < 256 := by
  unfold loadByte at h
  split at h
  · rename_i x hx
    injection h with h
    subst h
    exact a.byte_lt x (List.getElem?_mem hx)
  · cases h

theorem copyLoop_eq_copyLoopHex (a : in6_addr) (ps : Int) (fuel : Nat) (st : Ipv6Fill) :
    copyLoop a ps fuel st = copyLoopHex a ps fuel st := by
  induction fuel generalizing st with
  | zero => rfl
  | succ f ih =>
    unfold copyLoop copyLoopHex
    split
    · cases hb : loadByte a st.addrIndex with
      | error e => rfl
      | ok b =>
        simp only [bind, Except.bind, addrPartOf_byte b (loadByte_lt a _ b hb), ih]
    · rfl

theorem getIpv6NetworkAddress_eq_fillHex (inet_pton : Ipv6Parse) (s : List Char) (a : in6_addr)
    (p : Int) (h : inet_pton s = some a) :
    getIpv6NetworkAddress inet_pton s p =
      fillHex a (Int.tdiv p 8 * 2 + Int.tdiv (Int.tdiv p 8) 2) := by
  unfold getIpv6NetworkAddress fillHex
  rw [h]
  simp only [copyLoop_eq_copyLoopHex]


theorem loadByte_getD (a : in6_addr) (k : Nat) (hk : k < a.s6_addr.length) :
    loadByte a k = .ok (a.s6_addr.getD k 0) := by
  unfold loadByte
  rw [List.getElem?_eq_getElem hk]
  simp [List.getD, List.getElem?_eq_getElem hk]

theorem memcpy2_hexCells (buf : CharBuf) (i b : Nat) (hlen : i + 1 < buf.length) :
    memcpy2 buf i (hexCells b) =
      .ok ((buf.set i (some (lowerHex (b / 16)))).set (i + 1) (some (lowerHex (b % 16)))) := by
  have h0 : i < buf.length := by omega
  simp [memcpy2, hexCells, storeCell, h0, hlen, bind, Except.bind]

theorem memcpy2_zeros (buf : CharBuf) (i : Nat) (hlen : i + 1 < buf.length) :
    memcpy2 buf i [some '0', some '0', some (Char.ofNat 0)] =
      .ok ((buf.set i (some '0')).set (i + 1) (some '0')) := by
  have h0 : i < buf.length := by omega
  simp [memcpy2, storeCell, h0, hlen, bind, Except.bind]

theorem copyLoopHex_exit (a : in6_addr) (ps : Int) (fuel : Nat) (st : Ipv6Fill)
    (h : ¬ (st.i : Int) < ps) : copyLoopHex a ps fuel st = .ok st := by
  cases fuel <;> simp [copyLoopHex, h]

theorem copyLoopHex_step0 (a : in6_addr) (ps : Int) (fuel i k : Nat) (buf : CharBuf)
    (h1 : (i : Int) < ps) (hk : k < a.s6_addr.length) (hlen : i + 1 < buf.length) :
    copyLoopHex a ps (fuel + 1) ⟨i, 0, k, buf⟩ =
      copyLoopHex a ps fuel ⟨i + 2, 1, k + 1,
        (buf.set i (some (lowerHex (a.s6_addr.getD k 0 / 16)))).set (i + 1)
          (some (lowerHex (a.s6_addr.getD k 0 % 16)))⟩ := by
  rw [copyLoopHex]
  simp [h1, loadByte_getD a k hk, memcpy2_hexCells _ _ _ hlen, bind, Except.bind]

theorem copyLoopHex_step1 (a : in6_addr) (ps : Int) (fuel i k : Nat) (buf : CharBuf)
    (h1 : (i : Int) < ps) (hk : k < a.s6_addr.length) (h39 : i + 2 < 39)
    (hlen : i + 2 < buf.length) :
    copyLoopHex a ps (fuel + 1) ⟨i, 1, k, buf⟩ =
      copyLoopHex a ps fuel ⟨i + 2 + 1, 0, k + 1,
        ((buf.set i (some (lowerHex (a.s6_addr.getD k 0 / 16)))).set (i + 1)
          (some (lowerHex (a.s6_addr.getD k 0 % 16)))).set (i + 2) (some ':')⟩ := by
  rw [copyLoopHex]
  simp [h1, h39, loadByte_getD a k hk, memcpy2_hexCells _ _ _ (by omega : i + 1 < buf.length),
    storeCell, hlen, bind, Except.bind]

theorem copyLoopHex_step1_last (a : in6_addr) (ps : Int) (fuel i k : Nat) (buf : CharBuf)
    (h1 : (i : Int) < ps) (hk : k < a.s6_addr.length) (h39 : ¬ i + 2 < 39)
    (hlen : i + 1 < buf.length) :
    copyLoopHex a ps (fuel + 1) ⟨i, 1, k, buf⟩ =
      copyLoopHex a ps fuel ⟨i + 2, 0, k + 1,
        (buf.set i (some (lowerHex (a.s6_addr.getD k 0 / 16)))).set (i + 1)
          (some (lowerHex (a.s6_addr.getD k 0 % 16)))⟩ := by
  rw [copyLoopHex]
  simp [h1, h39, loadByte_getD a k hk, memcpy2_hexCells _ _ _ hlen, bind, Except.bind]

theorem zeroLoop_exit (fuel : Nat) (st : Ipv6Fill) (h : ¬ st.i < 39) :
    zeroLoop fuel st = .ok st := by
  cases fuel <;> simp [zeroLoop, h]

theorem zeroLoop_step0 (fuel i k : Nat) (buf : CharBuf) (h1 : i < 39)
    (hlen : i + 1 < buf.length) :
    zeroLoop (fuel + 1) ⟨i, 0, k, buf⟩ =
      zeroLoop fuel ⟨i + 2, 1, k, (buf.set i (some '0')).set (i + 1) (some '0')⟩ := by
  rw [zeroLoop]
  simp [h1, memcpy2_zeros _ _ hlen, bind, Except.bind]

theorem zeroLoop_step1 (fuel i k : Nat) (buf : CharBuf) (h1 : i < 39) (h39 : i + 2 + 1 < 39)
    (hlen : i + 2 < buf.length) :
    zeroLoop (fuel + 1) ⟨i, 1, k, buf⟩ =
      zeroLoop fuel ⟨i + 2 + 1, 0, k,
        ((buf.set i (some '0')).set (i + 1) (some '0')).set (i + 2) (some ':')⟩ := by
  rw [zeroLoop]
  simp [h1, h39, memcpy2_zeros _ _ (by omega : i + 1 < buf.length), storeCell, hlen, bind,
    Except.bind]

theorem zeroLoop_step1_last (fuel i k : Nat) (buf : CharBuf) (h1 : i < 39)
    (h39 : ¬ i + 2 + 1 < 39) (hlen : i + 1 < buf.length) :
    zeroLoop (fuel + 1) ⟨i, 1, k, buf⟩ =
      zeroLoop fuel ⟨i + 2, 0, k, (buf.set i (some '0')).set (i + 1) (some '0')⟩ := by
  rw [zeroLoop]
  simp [h1, h39, memcpy2_zeros _ _ hlen, bind, Except.bind]

theorem lowerHex_zero : lowerHex 0 = '0' := rfl

theorem prefixBytes_sixteen (n b0 b1 b2 b3 b4 b5 b6 b7 b8 b9 b10 b11 b12 b13 b14 b15 : Nat) :
    prefixBytes n [b0, b1, b2, b3, b4, b5, b6, b7, b8, b9, b10, b11, b12, b13, b14, b15] =
      [if 0 < n then b0 else 0, if 1 < n then b1 else 0, if 2 < n then b2 else 0,
        if 3 < n then b3 else 0, if 4 < n then b4 else 0, if 5 < n then b5 else 0,
        if 6 < n then b6 else 0, if 7 < n then b7 else 0, if 8 < n then b8 else 0,
        if 9 < n then b9 else 0, if 10 < n then b10 else 0, if 11 < n then b11 else 0,
        if 12 < n then b12 else 0, if 13 < n then b13 else 0, if 14 < n then b14 else 0,
        if 15 < n then b15 else 0] := rfl


set_option maxRecDepth 100000 in
set_option maxHeartbeats 2000000 in
theorem fillHex_bytes (a : in6_addr) (n : Nat) (h15 : n ≤ 15) :
    fillHex a ((n : Int) * 2 + Int.tdiv (n : Int) 2) =
      .ok (some ((expandedForm (prefixBytes n a.s6_addr)).map some ++ [none])) := by
  obtain ⟨l, hl, hb⟩ := a
  obtain ⟨b0, b1, b2, b3, b4, b5, b6, b7, b8, b9, b10, b11, b12, b13, b14, b15, rfl⟩ :=
    list_sixteen l hl
  unfold fillHex
  interval_cases n
  all_goals
    simp [copyLoopHex_step0, copyLoopHex_step1, copyLoopHex_step1_last, copyLoopHex_exit,
      zeroLoop_step0, zeroLoop_step1, zeroLoop_step1_last, zeroLoop_exit, malloc,
      bind, Except.bind, pure, Except.pure, prefixBytes_sixteen, expandedForm_sixteen,
      lowerHex_zero, Int.tdiv]

theorem copyLoopHex_oob (a : in6_addr) (ps : Int) (fuel : Nat) (st : Ipv6Fill)
    (h1 : (st.i : Int) < ps) (hk : ¬ st.addrIndex < a.s6_addr.length) :
    copyLoopHex a ps (fuel + 1) st = .error .outOfBounds := by
  rw [copyLoopHex]
  have hnone : a.s6_addr[st.addrIndex]? = none := List.getElem?_eq_none (by omega)
  simp [h1, loadByte, hnone, bind, Except.bind]

theorem fillHex_nonpos (a : in6_addr) (ps : Int) (h : ps ≤ 0) : fillHex a ps = fillHex a 0 := by
  unfold fillHex
  rw [copyLoopHex_exit a ps 17 _ (by simp only [Nat.cast_zero]; omega),
    copyLoopHex_exit a 0 17 _ (by simp)]

theorem tdiv8_cases (p : Int) (hp : p ≤ 127) :
    (Int.tdiv p 8 * 2 + Int.tdiv (Int.tdiv p 8) 2 ≤ 0 ∧ (Int.tdiv p 8).toNat = 0) ∨
      ∃ n : Nat, n ≤ 15 ∧ Int.tdiv p 8 = (n : Int) := by
  rcases Int.lt_or_le p 0 with hneg | hpos
  · left
    obtain ⟨m, rfl⟩ : ∃ m : Int, p = -m := ⟨-p, by omega⟩
    have hm : 0 ≤ m := by omega
    have h1 : 0 ≤ Int.tdiv m 8 := Int.tdiv_nonneg hm (by decide)
    have h2 : 0 ≤ Int.tdiv (Int.tdiv m 8) 2 := Int.tdiv_nonneg h1 (by decide)
    rw [Int.neg_tdiv, Int.neg_tdiv]
    constructor
    · omega
    · omega
  · right
    have e : Int.tdiv p 8 = p / 8 := Int.tdiv_eq_ediv hpos (by decide)
    refine ⟨(p / 8).toNat, ?_, ?_⟩
    · omega
    · rw [e]
      omega

theorem getIpv6NetworkAddress_parsed (inet_pton : Ipv6Parse) (s : List Char) (a : in6_addr)
    (p : Int) (h : inet_pton s = some a) (hp : p ≤ 127) :
    getIpv6NetworkAddress inet_pton s p =
      .ok (some ((expandedForm (prefixBytes (Int.tdiv p 8).toNat a.s6_addr)).map some
        ++ [none])) := by
  rw [getIpv6NetworkAddress_eq_fillHex inet_pton s a p h]
  rcases tdiv8_cases p hp with ⟨h1, h2⟩ | ⟨n, hn, e⟩
  · rw [fillHex_nonpos a _ h1, h2]
    exact fillHex_bytes a 0 (by omega)
  · rw [e]
    simpa using fillHex_bytes a n hn

set_option maxRecDepth 100000 in
set_option maxHeartbeats 2000000 in
theorem fillHex_forty (a : in6_addr) : fillHex a 40 = .error .outOfBounds := by
  obtain ⟨l, hl, hb⟩ := a
  obtain ⟨b0, b1, b2, b3, b4, b5, b6, b7, b8, b9, b10, b11, b12, b13, b14, b15, rfl⟩ :=
    list_sixteen l hl
  unfold fillHex
  simp [copyLoopHex_step0, copyLoopHex_step1, copyLoopHex_step1_last, copyLoopHex_oob, malloc,
    bind, Except.bind]

theorem expandedForm_length_sixteen (l : List Nat) (hl : l.length = 16) :
    (expandedForm l).length = 39 := by
  obtain ⟨b0, b1, b2, b3, b4, b5, b6, b7, b8, b9, b10, b11, b12, b13, b14, b15, rfl⟩ :=
    list_sixteen l hl
  rfl

theorem prefixBytes_length (n : Nat) (bytes : List Nat) : (prefixBytes n bytes).length = 16 := by
  simp [prefixBytes]

/-! ### Canonical decimal numerals are what `%d` prints -/

theorem decValue_foldl (xs : List Char) (acc : Nat) :
    xs.foldl (fun acc c => acc * 10 + (c.toNat - 48)) acc = acc * 10 ^ xs.length + decValue xs := by
  induction xs generalizing acc with
  | nil => simp [decValue]
  | cons c cs ih =>
    simp only [List.foldl_cons, List.length_cons, decValue]
    rw [ih, ih (0 * 10 + (c.toNat - 48))]
    rw [pow_succ]
    ring

theorem decValue_cons (c : Char) (cs : List Char) :
    decValue (c :: cs) = (c.toNat - 48) * 10 ^ cs.length + decValue cs := by
  unfold decValue
  rw [List.foldl_cons, decValue_foldl]
  simp [decValue]

theorem isDigit_toNat_bounds {c : Char} (h : c.isDigit = true) : 48 ≤ c.toNat ∧ c.toNat ≤ 57 := by
  simp only [Char.isDigit, Bool.and_eq_true, decide_eq_true_eq] at h
  exact ⟨h.1, h.2⟩

theorem digitChar_of_digit {c : Char} (h : c.isDigit = true) : Nat.digitChar (c.toNat - 48) = c := by
  have hb := isDigit_toNat_bounds h
  apply char_toNat_inj
  rw [(digitChar_lt_ten (c.toNat - 48) (by omega)).2]
  omega

theorem decValue_pos_of_head (c : Char) (cs : List Char) (hc : c.isDigit = true)
    (h0 : c ≠ '0') : 1 ≤ decValue (c :: cs) := by
  rw [decValue_cons]
  have hb := isDigit_toNat_bounds hc
  have h1 : 1 ≤ c.toNat - 48 := by
    have : c.toNat ≠ 48 := fun e => h0 (char_toNat_inj (by rw [e]; rfl))
    omega
  have h2 : 1 ≤ 10 ^ cs.length := Nat.one_le_two_pow.trans (Nat.pow_le_pow_left (by decide) _)
  calc 1 ≤ (c.toNat - 48) * 10 ^ cs.length := Nat.mul_le_mul h1 h2
    _ ≤ _ := Nat.le_add_right _ _

theorem canonical_eq_natDigits (s : List Char) (hs : IsDigits s)
    (hc : s.head? = some '0' → s = ['0']) (fuel : Nat) (hf : 0 < fuel)
    (hv : decValue s < 10 ^ fuel) : natDigits 10 fuel (decValue s) = s := by
  induction s using List.reverseRecOn generalizing fuel with
  | nil => exact absurd rfl hs.1
  | append_singleton init c ih =>
    have hcd : c.isDigit = true := hs.2 c (by simp)
    have hb := isDigit_toNat_bounds hcd
    obtain ⟨f, rfl⟩ : ∃ f, fuel = f + 1 := ⟨fuel - 1, by omega⟩
    rw [decValue_append_single] at hv ⊢
    cases init with
    | nil =>
      have e : decValue [] = 0 := rfl
      rw [e]
      unfold natDigits
      rw [if_pos (by omega)]
      simp only [Nat.zero_mul, Nat.zero_add, List.nil_append]
      rw [digitChar_of_digit hcd]
    | cons x xs =>
      have hx : x.isDigit = true := hs.2 x (by simp)
      have hx0 : x ≠ '0' := by
        intro e
        have := hc (by simp [e])
        simp at this
      have hpos := decValue_pos_of_head x xs hx hx0
      have hlt : decValue (x :: xs) < 10 ^ f := by
        rw [pow_succ] at hv
        omega
      have hfpos : 0 < f := by
        rcases Nat.eq_zero_or_pos f with h0 | h0
        · subst h0
          simp at hlt
          omega
        · exact h0
      unfold natDigits
      rw [if_neg (by omega)]
      have e1 : (decValue (x :: xs) * 10 + (c.toNat - 48)) / 10 = decValue (x :: xs) := by omega
      have e2 : (decValue (x :: xs) * 10 + (c.toNat - 48)) % 10 = c.toNat - 48 := by omega
      rw [e1, e2, digitChar_of_digit hcd]
      rw [ih ⟨by simp, fun d hd => hs.2 d (by simp at hd ⊢; tauto)⟩
        (fun h => absurd (by simpa using h) hx0) f hfpos hlt]

theorem IsCanonicalDec.eq_fmtD {s : List Char} {v : Nat} (h : IsCanonicalDec s v)
    (hv : v < 10 ^ 10) : fmtD (v : Int) = s := by
  obtain ⟨hs, hval, hhead⟩ := h
  rw [fmtD_ofNat, ← hval]
  exact canonical_eq_natDigits s hs hhead 10 (by decide) (by rw [hval]; exact hv)

theorem formatIPv4Address_dotted4 (v0 v1 v2 v3 : Nat)
    (h0 : v0 < 1000) (h1 : v1 < 1000) (h2 : v2 < 1000) (h3 : v3 < 1000) :
    formatIPv4Address (dotted4 (v0 : Int) (v1 : Int) (v2 : Int) (v3 : Int)) =
      .ok { text := dotted4 (v0 : Int) (v1 : Int) (v2 : Int) (v3 : Int),
            reallocTo := some (3 + digitWidth v0 + digitWidth v1 + digitWidth v2
              + digitWidth v3 + 1) } := by
  have c0 := fmtD_canonical v0 (by omega)
  have c1 := fmtD_canonical v1 (by omega)
  have c2 := fmtD_canonical v2 (by omega)
  have c3 := fmtD_canonical v3 (by omega)
  have e := formatIPv4Address_joinDots (fmtD v0) (fmtD v1) (fmtD v2) (fmtD v3)
    c0.1 c1.1 c2.1 c3.1 (by rw [c0.2.1]; exact h0) (by rw [c1.2.1]; exact h1)
    (by rw [c2.2.1]; exact h2) (by rw [c3.2.1]; exact h3)
  rw [c0.2.1, c1.2.1, c2.2.1, c3.2.1] at e
  exact e

/-! ### `getCIDRnetmask` on four tokens -/

theorem IsDigits.isToken {t : List Char} (h : IsDigits t) : IsToken t := ⟨h.1, h.no_dot⟩

theorem tokenLoop_joinDots_atoi (t0 t1 t2 t3 : List Char)
    (h0 : IsToken t0) (h1 : IsToken t1) (h2 : IsToken t2) (h3 : IsToken t3) :
    tokenLoop 5 (strtok (joinDots t0 t1 t2 t3)).1 (strtok (joinDots t0 t1 t2 t3)).2 0 freshInts
      = .ok [some (atoi t0), some (atoi t1), some (atoi t2), some (atoi t3)] := by
  unfold joinDots
  rw [strtok_token_dot t0 _ h0.1 h0.2]
  simp only [tokenLoop, storeInt, freshInts, List.length_cons, List.length_nil,
    strtok_token_dot t1 _ h1.1 h1.2, strtok_token_dot t2 _ h2.1 h2.2,
    strtok_last t3 h3.1 h3.2, strtok_nil]
  simp

theorem getCIDRnetmask_joinDots (t0 t1 t2 t3 : List Char)
    (h0 : IsToken t0) (h1 : IsToken t1) (h2 : IsToken t2) (h3 : IsToken t3) :
    getCIDRnetmask (joinDots t0 t1 t2 t3) =
      cidrScan 4 0 [some (atoi t0), some (atoi t1), some (atoi t2), some (atoi t3)] 0 := by
  unfold getCIDRnetmask
  rw [tokenLoop_joinDots_atoi t0 t1 t2 t3 h0 h1 h2 h3]

theorem maskByteBits_cases (b : Int) :
    maskByteBits b = none ∨ ∃ k, maskByteBits b = some k ∧ 1 ≤ k ∧ k ≤ 8 := by
  unfold maskByteBits
  split_ifs
  all_goals first
    | (left; rfl)
    | (right; exact ⟨_, rfl, by decide, by decide⟩)

theorem cidrScan_bounds (n i : Nat) (ipbytes : IntArray) (c : Int)
    (h : ∀ j, i ≤ j → j < i + n → ∃ v, ipbytes[j]? = some (some v)) :
    ∃ r, cidrScan n i ipbytes c = .ok r ∧ c ≤ r ∧ r ≤ c + 8 * n := by
  induction n generalizing i c with
  | zero => exact ⟨c, rfl, le_refl _, by simp⟩
  | succ m ih =>
    obtain ⟨v, hv⟩ := h i (le_refl _) (by omega)
    unfold cidrScan
    simp only [loadInt, hv]
    rcases maskByteBits_cases v with hnone | ⟨k, hk, k1, k8⟩
    · rw [hnone]
      exact ⟨c, rfl, le_refl _, by push_cast; omega⟩
    · rw [hk]
      obtain ⟨r, hr, r1, r2⟩ := ih (i + 1) (c + k) (fun j hj1 hj2 => h j (by omega) (by omega))
      exact ⟨r, hr, by omega, by push_cast; omega⟩

/-! ### `strcmp` as a three-way comparison -/

theorem strcmp_neg_iff (a b : List Char) (hb : ∀ c ∈ b, c.toNat ≠ 0) :
    strcmp a b < 0 ↔ lexLt a b = true := by
  induction a generalizing b with
  | nil =>
    cases b with
    | nil => simp [strcmp, lexLt]
    | cons d ds =>
      have := hb d (List.mem_cons_self _ _)
      simp only [strcmp, lexLt]
      constructor
      · intro _; trivial
      · intro _; omega
  | cons c cs ih =>
    cases b with
    | nil =>
      simp only [strcmp, lexLt]
      constructor
      · intro h; omega
      · intro h; cases h
    | cons d ds =>
      simp only [strcmp, lexLt, Bool.or_eq_true, Bool.and_eq_true, decide_eq_true_eq,
        beq_iff_eq]
      by_cases hcd : c = d
      · rw [if_pos hcd, ih ds (fun x hx => hb x (List.mem_cons_of_mem _ hx))]
        subst hcd
        simp
      · rw [if_neg hcd]
        constructor
        · intro h; left; omega
        · rintro (h | ⟨h, _⟩)
          · omega
          · exact absurd h hcd

theorem strcmp_sign_swap (a b : List Char) :
    Int.sign (strcmp a b) = -Int.sign (strcmp b a) := by
  induction a generalizing b with
  | nil =>
    cases b with
    | nil => simp [strcmp]
    | cons d ds => simp [strcmp]
  | cons c cs ih =>
    cases b with
    | nil => simp [strcmp]
    | cons d ds =>
      simp only [strcmp]
      by_cases hcd : c = d
      · rw [if_pos hcd, if_pos hcd.symm]
        exact ih ds
      · rw [if_neg hcd, if_neg (fun e => hcd e.symm)]
        rw [← Int.sign_neg]
        congr 1
        omega

theorem strcmp_pos_iff (a b : List Char) (ha : ∀ c ∈ a, c.toNat ≠ 0) :
    0 < strcmp a b ↔ lexLt b a = true := by
  rw [← strcmp_neg_iff b a ha]
  have h := strcmp_sign_swap a b
  constructor
  · intro hpos
    rw [Int.sign_eq_one_of_pos hpos] at h
    have : Int.sign (strcmp b a) = -1 := by omega
    exact Int.sign_eq_neg_one_iff_neg.1 this
  · intro hneg
    rw [Int.sign_eq_neg_one_of_neg hneg] at h
    have : Int.sign (strcmp a b) = 1 := by omega
    exact Int.sign_eq_one_iff_pos.1 this

theorem strcmp_le_trans (a b c : List Char) (ha : ∀ x ∈ a, x.toNat ≠ 0)
    (hb : ∀ x ∈ b, x.toNat ≠ 0) (h1 : strcmp a b ≤ 0) (h2 : strcmp b c ≤ 0) :
    strcmp a c ≤ 0 := by
  induction a generalizing b c with
  | nil =>
    cases c with
    | nil => simp [strcmp]
    | cons z zs =>
      simp only [strcmp]
      omega
  | cons x xs ih =>
    have hx := ha x (List.mem_cons_self _ _)
    cases b with
    | nil =>
      simp only [strcmp] at h1
      omega
    | cons y ys =>
      have hy := hb y (List.mem_cons_self _ _)
      cases c with
      | nil =>
        simp only [strcmp] at h2
        omega
      | cons z zs =>
        simp only [strcmp] at h1 h2 ⊢
        by_cases hxy : x = y
        · by_cases hyz : y = z
          · rw [if_pos hxy] at h1
            rw [if_pos hyz] at h2
            rw [if_pos (hxy.trans hyz)]
            exact ih ys zs (fun w hw => ha w (List.mem_cons_of_mem _ hw))
              (fun w hw => hb w (List.mem_cons_of_mem _ hw)) h1 h2
          · rw [if_neg hyz] at h2
            subst hxy
            rw [if_neg hyz]
            exact h2
        · rw [if_neg hxy] at h1
          by_cases hyz : y = z
          · subst hyz
            rw [if_neg hxy]
            exact h1
          · rw [if_neg hyz] at h2
            have hne1 : x.toNat ≠ y.toNat := fun e => hxy (char_toNat_inj e)
            have hne2 : y.toNat ≠ z.toNat := fun e => hyz (char_toNat_inj e)
            have hxz : x ≠ z := by
              intro e
              subst e
              omega
            rw [if_neg hxz]
            omega

theorem compareIPv4Addresses_joinDots (a0 a1 a2 a3 b0 b1 b2 b3 : List Char)
    (ha0 : IsDigits a0) (ha1 : IsDigits a1) (ha2 : IsDigits a2) (ha3 : IsDigits a3)
    (hb0 : IsDigits b0) (hb1 : IsDigits b1) (hb2 : IsDigits b2) (hb3 : IsDigits b3)
    (va0 : decValue a0 < 1000) (va1 : decValue a1 < 1000) (va2 : decValue a2 < 1000)
    (va3 : decValue a3 < 1000)
    (vb0 : decValue b0 < 1000) (vb1 : decValue b1 < 1000) (vb2 : decValue b2 < 1000)
    (vb3 : decValue b3 < 1000) :
    compareIPv4Addresses (joinDots a0 a1 a2 a3) (joinDots b0 b1 b2 b3) =
      .ok (strcmp (dotted4 (decValue a0) (decValue a1) (decValue a2) (decValue a3))
        (dotted4 (decValue b0) (decValue b1) (decValue b2) (decValue b3))) := by
  unfold compareIPv4Addresses
  rw [formatIPv4Address_joinDots a0 a1 a2 a3 ha0 ha1 ha2 ha3 va0 va1 va2 va3,
    formatIPv4Address_joinDots b0 b1 b2 b3 hb0 hb1 hb2 hb3 vb0 vb1 vb2 vb3]
  rfl

/-! ### The switch of `getCIDRnetmask` on octets -/

theorem maskByteBits_nat (o : Nat) :
    maskByteBits (o : Int) = if regularByte o then some (onesInOctet o : Int) else none := by
  unfold maskByteBits
  have e : ∀ k : Nat, ((o : Int) = (k : Int)) ↔ o = k := fun k => by omega
  have e128 := e 128
  have e192 := e 192
  have e224 := e 224
  have e240 := e 240
  have e248 := e 248
  have e252 := e 252
  have e254 := e 254
  have e255 := e 255
  simp only [Nat.cast_ofNat] at e128 e192 e224 e240 e248 e252 e254 e255
  simp only [e128, e192, e224, e240, e248, e252, e254, e255]
  split_ifs with h1 h2 h3 h4 h5 h6 h7 h8 h9 h9 h9 h9 h9 h9 h9 h9 h9
  all_goals first
    | (subst_vars; rfl)
    | (subst_vars; exact absurd rfl (by assumption))
    | (exfalso; simp [regularByte] at *; omega)

theorem cidrScan_step (n i : Nat) (ipbytes : IntArray) (c : Int) (o : Nat)
    (h : ipbytes[i]? = some (some (o : Int))) :
    cidrScan (n + 1) i ipbytes c =
      if regularByte o then cidrScan n (i + 1) ipbytes (c + (onesInOctet o : Nat))
      else .ok c := by
  rw [cidrScan]
  simp only [loadInt, h]
  rw [maskByteBits_nat]
  split_ifs <;> rfl

theorem cidrScan_stopSum (os : List Nat) (pre : IntArray) (c : Int) :
    cidrScan os.length pre.length (pre ++ os.map (fun o : Nat => some (o : Int))) c =
      .ok (c + (stopSum os : Nat)) := by
  induction os generalizing pre c with
  | nil => simp [cidrScan, stopSum]
  | cons o rest ih =>
    have hget : (pre ++ (o :: rest).map (fun o : Nat => some (o : Int)))[pre.length]?
        = some (some (o : Int)) := by
      rw [List.getElem?_append_right (le_refl _)]
      simp
    rw [List.length_cons, cidrScan_step _ _ _ _ o hget]
    unfold stopSum
    by_cases hreg : regularByte o = true
    · rw [if_pos hreg, if_pos hreg]
      have e := ih (pre ++ [some (o : Int)]) (c + (onesInOctet o : Nat))
      simp only [List.length_append, List.length_singleton, List.append_assoc,
        List.singleton_append] at e
      rw [List.map_cons, e]
      congr 1
      push_cast
      ring
    · rw [if_neg hreg, if_neg hreg]
      simp

theorem cidrScan_four_octets (o0 o1 o2 o3 : Nat) :
    cidrScan 4 0 [some (o0 : Int), some (o1 : Int), some (o2 : Int), some (o3 : Int)] 0 =
      .ok ((stopSum [o0, o1, o2, o3] : Nat) : Int) := by
  simpa using cidrScan_stopSum [o0, o1, o2, o3] [] 0

theorem getCIDRnetmask_octets (t0 t1 t2 t3 : List Char)
    (h0 : IsOctet t0) (h1 : IsOctet t1) (h2 : IsOctet t2) (h3 : IsOctet t3) :
    getCIDRnetmask (joinDots t0 t1 t2 t3) =
      .ok ((stopSum [decValue t0, decValue t1, decValue t2, decValue t3] : Nat) : Int) := by
  have b0 := h0.2
  have b1 := h1.2
  have b2 := h2.2
  have b3 := h3.2
  rw [getCIDRnetmask_joinDots t0 t1 t2 t3 h0.1.isToken h1.1.isToken h2.1.isToken h3.1.isToken,
    atoi_digits t0 h0.1 (by omega), atoi_digits t1 h1.1 (by omega),
    atoi_digits t2 h2.1 (by omega), atoi_digits t3 h3.1 (by omega)]
  exact cidrScan_four_octets _ _ _ _

theorem stopSum_take (os : List Nat) (k : Nat) (hk : k ≤ os.length)
    (hreg : ∀ j, j < k → regularByte (os.getD j 0) = true)
    (hirr : k < os.length → regularByte (os.getD k 0) = false) :
    stopSum os = ((os.take k).map onesInOctet).sum := by
  induction os generalizing k with
  | nil => simp [stopSum]
  | cons o rest ih =>
    cases k with
    | zero =>
      have h := hirr (by simp)
      simp only [List.getD_cons_zero] at h
      simp [stopSum, h]
    | succ m =>
      have h := hreg 0 (by omega)
      simp only [List.getD_cons_zero] at h
      have e := ih m (by simpa using hk)
        (fun j hj => by simpa using hreg (j + 1) (by omega))
        (fun hm => by simpa using hirr (by simpa using hm))
      simp [stopSum, h, e]

/-! ### Leading 1-bits of a mask -/

theorem octet_facts (o : Nat) (h : o < 256) :
    (leadingOnes 8 o = 8 ↔ o = 255) ∧
    (regularByte o = true → onesInOctet o = leadingOnes 8 o ∧ 1 ≤ onesInOctet o) ∧
    (regularByte o = false → (leadingOnes 8 o = 0 ↔ o < 128)) := by
  interval_cases o <;> decide

theorem bitsOf_eight (o : Nat) :
    bitsOf 8 o = [decide (o / 128 % 2 = 1), decide (o / 64 % 2 = 1), decide (o / 32 % 2 = 1),
      decide (o / 16 % 2 = 1), decide (o / 8 % 2 = 1), decide (o / 4 % 2 = 1),
      decide (o / 2 % 2 = 1), decide (o / 1 % 2 = 1)] := rfl

theorem bitsOf_mask32 (o0 o1 o2 o3 : Nat) (h1 : o1 < 256) (h2 : o2 < 256) (h3 : o3 < 256) :
    bitsOf 32 (mask32 o0 o1 o2 o3) =
      bitsOf 8 o0 ++ (bitsOf 8 o1 ++ (bitsOf 8 o2 ++ bitsOf 8 o3)) := by
  rw [bitsOf_eight, bitsOf_eight, bitsOf_eight, bitsOf_eight]
  simp only [bitsOf, mask32, List.range_succ, List.range_zero, List.nil_append,
    List.cons_append, List.map_cons, List.map_nil, List.map_append, List.cons.injEq,
    decide_eq_decide, and_true]
  norm_num
  refine ⟨?_, ?_, ?_, ?_, ?_, ?_, ?_, ?_, ?_, ?_, ?_, ?_, ?_, ?_, ?_, ?_, ?_, ?_, ?_, ?_, ?_, ?_,
    ?_, ?_, ?_, ?_, ?_, ?_, ?_, ?_, ?_, ?_⟩
  all_goals omega

theorem leadingOnes_mask32 (o0 o1 o2 o3 : Nat) (h1 : o1 < 256) (h2 : o2 < 256)
    (h3 : o3 < 256) :
    leadingOnes 32 (mask32 o0 o1 o2 o3) =
      ((octetsBits [o0, o1, o2, o3]).takeWhile id).length := by
  unfold leadingOnes
  rw [bitsOf_mask32 o0 o1 o2 o3 h1 h2 h3]
  simp [octetsBits]

theorem octetsBits_cons_lead (o : Nat) (os : List Nat) :
    ((octetsBits (o :: os)).takeWhile id).length =
      if leadingOnes 8 o = 8 then 8 + ((octetsBits os).takeWhile id).length
      else leadingOnes 8 o := by
  have hlen : (bitsOf 8 o).length = 8 := by simp [bitsOf]
  show ((bitsOf 8 o ++ octetsBits os).takeWhile id).length = _
  rw [List.takeWhile_append]
  unfold leadingOnes
  rw [hlen]
  split_ifs
  · rw [List.length_append, hlen]
  · rfl

theorem stopSum_eq_zero_iff (o : Nat) (os : List Nat) (ho : o < 256) :
    stopSum (o :: os) = 0 ↔ regularByte o = false := by
  obtain ⟨_, f2, _⟩ := octet_facts o ho
  unfold stopSum
  by_cases hreg : regularByte o = true
  · have := (f2 hreg).2
    rw [if_pos hreg]
    constructor
    · intro h; omega
    · intro h; rw [hreg] at h; cases h
  · rw [if_neg hreg]
    simp [hreg]

theorem stopSum_eq_leading_iff (os : List Nat) (hos : ∀ o ∈ os, o < 256) :
    stopSum os = ((octetsBits os).takeWhile id).length ↔ agreesWithPrefix os = true := by
  induction os with
  | nil => simp [stopSum, octetsBits, agreesWithPrefix]
  | cons o rest ih =>
    have ho : o < 256 := hos o (List.mem_cons_self _ _)
    have hrest : ∀ x ∈ rest, x < 256 := fun x hx => hos x (List.mem_cons_of_mem _ hx)
    obtain ⟨f1, f2, f3⟩ := octet_facts o ho
    rw [octetsBits_cons_lead]
    by_cases h255 : o = 255
    · subst h255
      have e1 : regularByte 255 = true := by decide
      have e2 : onesInOctet 255 = 8 := by decide
      rw [if_pos (f1.2 rfl)]
      simp only [stopSum, e1, if_true, e2, agreesWithPrefix]
      rw [← ih hrest]
      omega
    · rw [if_neg (fun h => h255 (f1.1 h))]
      by_cases hreg : regularByte o = true
      · obtain ⟨g1, _⟩ := f2 hreg
        simp only [stopSum, hreg, if_true, agreesWithPrefix, if_neg h255]
        rw [← g1]
        cases rest with
        | nil => simp [stopSum]
        | cons o1 r =>
          have ho1 : o1 < 256 := hrest o1 (List.mem_cons_self _ _)
          have hz := stopSum_eq_zero_iff o1 r ho1
          simp only [Bool.not_eq_true']
          rw [← hz]
          omega
      · have hreg' : regularByte o = false := by simpa using hreg
        have f3' := f3 hreg'
        simp only [stopSum, hreg', agreesWithPrefix, if_neg h255, decide_eq_true_eq,
          Bool.false_eq_true, if_false]
        rw [← f3']
        omega

/-! ### Final state of the loops of `getIpv6NetworkAddress` -/

set_option maxRecDepth 100000 in
set_option maxHeartbeats 2000000 in
theorem loops_final (a : in6_addr) (n : Nat) (h15 : n ≤ 15) :
    ∃ st1 st2 : Ipv6Fill,
      copyLoopHex a ((n : Int) * 2 + Int.tdiv (n : Int) 2) 17 ⟨0, 0, 0, malloc (39 + 1)⟩
        = .ok st1 ∧
      zeroLoop 20 st1 = .ok st2 ∧
      st2.addrIndex = n ∧
      st2.networkAddress = (expandedForm (prefixBytes n a.s6_addr)).map some ++ [none] := by
  obtain ⟨l, hl, hb⟩ := a
  obtain ⟨b0, b1, b2, b3, b4, b5, b6, b7, b8, b9, b10, b11, b12, b13, b14, b15, rfl⟩ :=
    list_sixteen l hl
  interval_cases n
  all_goals
    simp [copyLoopHex_step0, copyLoopHex_step1, copyLoopHex_step1_last, copyLoopHex_exit,
      zeroLoop_step0, zeroLoop_step1, zeroLoop_step1_last, zeroLoop_exit, malloc,
      prefixBytes_sixteen, expandedForm_sixteen, lowerHex_zero, Int.tdiv]

theorem expandedForm_colon_iff (l : List Nat) (hl : l.length = 16) (i : Nat) (hi : i < 39) :
    (expandedForm l)[i]? = some ':' ↔ i % 5 = 4 := by
  obtain ⟨b0, b1, b2, b3, b4, b5, b6, b7, b8, b9, b10, b11, b12, b13, b14, b15, rfl⟩ :=
    list_sixteen l hl
  rw [expandedForm_sixteen]
  interval_cases i <;> simp [lowerHex_ne_colon]

theorem expandedForm_pair (l : List Nat) (hl : l.length = 16) (k : Nat) (hk : k < 16) :
    ((expandedForm l).drop (5 * (k / 2) + 2 * (k % 2))).take 2 = hexPair (l.getD k 0) := by
  obtain ⟨b0, b1, b2, b3, b4, b5, b6, b7, b8, b9, b10, b11, b12, b13, b14, b15, rfl⟩ :=
    list_sixteen l hl
  interval_cases k <;> rfl

theorem prefixBytes_getD (n : Nat) (bytes : List Nat) (k : Nat) (hk : k < 16) :
    (prefixBytes n bytes).getD k 0 = if k < n then bytes.getD k 0 else 0 := by
  simp [prefixBytes, List.getD, List.getElem?_map, List.getElem?_range hk]

theorem tdiv8_of_nonneg (p : Int) (hp0 : 0 ≤ p) (hp : p ≤ 127) :
    Int.tdiv p 8 = (((p / 8).toNat : Nat) : Int) ∧ (p / 8).toNat ≤ 15 := by
  have e : Int.tdiv p 8 = p / 8 := Int.tdiv_eq_ediv hp0 (by decide)
  rw [e]
  constructor <;> omega

/-! ### Lengths of the dotted formats -/

theorem digitWidth_pos (n : Nat) : 1 ≤ digitWidth n := by
  unfold digitWidth
  split_ifs <;> omega

theorem dotted4_length_width (v0 v1 v2 v3 : Nat)
    (h0 : v0 < 1000) (h1 : v1 < 1000) (h2 : v2 < 1000) (h3 : v3 < 1000) :
    (dotted4 (v0 : Int) (v1 : Int) (v2 : Int) (v3 : Int)).length =
      3 + digitWidth v0 + digitWidth v1 + digitWidth v2 + digitWidth v3 := by
  rw [dotted4_length, fmtD_length _ h0, fmtD_length _ h1, fmtD_length _ h2, fmtD_length _ h3]

theorem getIpv4NetworkAddress_joinDots (a0 a1 a2 a3 m0 m1 m2 m3 : List Char)
    (ha0 : IsOctet a0) (ha1 : IsOctet a1) (ha2 : IsOctet a2) (ha3 : IsOctet a3)
    (hm0 : IsOctet m0) (hm1 : IsOctet m1) (hm2 : IsOctet m2) (hm3 : IsOctet m3) :
    getIpv4NetworkAddress (joinDots a0 a1 a2 a3) (joinDots m0 m1 m2 m3) =
      .ok (dotted4 ((decValue a0 &&& decValue m0 : Nat) : Int)
        ((decValue a1 &&& decValue m1 : Nat) : Int)
        ((decValue a2 &&& decValue m2 : Nat) : Int)
        ((decValue a3 &&& decValue m3 : Nat) : Int)) := by
  have b0 : decValue a0 &&& decValue m0 ≤ 255 := le_trans Nat.and_le_left ha0.2
  have b1 : decValue a1 &&& decValue m1 ≤ 255 := le_trans Nat.and_le_left ha1.2
  have b2 : decValue a2 &&& decValue m2 ≤ 255 := le_trans Nat.and_le_left ha2.2
  have b3 : decValue a3 &&& decValue m3 ≤ 255 := le_trans Nat.and_le_left ha3.2
  unfold getIpv4NetworkAddress
  rw [tokenLoop_joinDots a0 a1 a2 a3 ha0.1 ha1.1 ha2.1 ha3.1
      (by have := ha0.2; omega) (by have := ha1.2; omega)
      (by have := ha2.2; omega) (by have := ha3.2; omega),
    tokenLoop_joinDots m0 m1 m2 m3 hm0.1 hm1.1 hm2.1 hm3.1
      (by have := hm0.2; omega) (by have := hm1.2; omega)
      (by have := hm2.2; omega) (by have := hm3.2; omega)]
  simp only [bind, Except.bind, andLoop_four, land_ofNat, sprintfDotted_four, sprintfInto]
  rw [if_pos]
  rw [dotted4_length_width _ _ _ _ (by omega) (by omega) (by omega) (by omega)]
  have := digitWidth_le (decValue a0 &&& decValue m0)
  have := digitWidth_le (decValue a1 &&& decValue m1)
  have := digitWidth_le (decValue a2 &&& decValue m2)
  have := digitWidth_le (decValue a3 &&& decValue m3)
  omega

/-! ### `strcmp` on expanded forms and the numeric order of addresses -/

theorem strcmp_append_same (u xs ys : List Char) : strcmp (u ++ xs) (u ++ ys) = strcmp xs ys := by
  induction u with
  | nil => rfl
  | cons c cs ih => simp [strcmp, ih]

theorem strcmp_append_of_ne (u v xs ys : List Char) (hlen : u.length = v.length) (hne : u ≠ v) :
    strcmp (u ++ xs) (v ++ ys) = strcmp u v := by
  induction u generalizing v with
  | nil =>
    cases v with
    | nil => exact absurd rfl hne
    | cons d ds => simp at hlen
  | cons c cs ih =>
    cases v with
    | nil => simp at hlen
    | cons d ds =>
      simp only [List.cons_append, strcmp]
      by_cases hcd : c = d
      · subst hcd
        rw [if_pos rfl, if_pos rfl]
        exact ih ds (by simpa using hlen) (fun e => hne (by rw [e]))
      · rw [if_neg hcd, if_neg hcd]

theorem lowerHex_toNat (x : Nat) (hx : x < 16) :
    (lowerHex x).toNat = if x < 10 then x + 48 else x + 87 := by
  interval_cases x <;> rfl

theorem lowerHex_toNat_lt (x y : Nat) (hy : y < 16) (h : x < y) :
    (lowerHex x).toNat < (lowerHex y).toNat := by
  rw [lowerHex_toNat x (by omega), lowerHex_toNat y hy]
  split_ifs <;> omega

theorem strcmp_hexPair_neg (a b : Nat) (hb : b < 256) (h : a < b) :
    strcmp (hexPair a) (hexPair b) < 0 := by
  unfold hexPair
  simp only [strcmp]
  by_cases hhi : lowerHex (a / 16) = lowerHex (b / 16)
  · have e := lowerHex_inj _ _ (by omega) (by omega) hhi
    have hlo := lowerHex_toNat_lt (a % 16) (b % 16) (by omega) (by omega)
    have hne : lowerHex (a % 16) ≠ lowerHex (b % 16) := fun e2 => by
      rw [e2] at hlo
      exact absurd hlo (lt_irrefl _)
    rw [if_pos hhi, if_neg hne]
    omega
  · have hlt : a / 16 < b / 16 := by
      rcases Nat.lt_or_ge (a / 16) (b / 16) with h1 | h1
      · exact h1
      · exfalso
        have : a / 16 = b / 16 := by omega
        exact hhi (by rw [this])
    have := lowerHex_toNat_lt (a / 16) (b / 16) (by omega) hlt
    rw [if_neg hhi]
    omega

theorem strcmp_hexPair_sign (a b : Nat) (ha : a < 256) (hb : b < 256) (hne : a ≠ b) :
    Int.sign (strcmp (hexPair a) (hexPair b)) = Int.sign ((a : Int) - (b : Int)) := by
  rcases Nat.lt_or_gt_of_ne hne with h | h
  · rw [Int.sign_eq_neg_one_of_neg (strcmp_hexPair_neg a b hb h),
      Int.sign_eq_neg_one_of_neg (by omega)]
  · have h1 := strcmp_hexPair_neg b a ha h
    have h2 := strcmp_sign_swap (hexPair a) (hexPair b)
    rw [Int.sign_eq_neg_one_of_neg h1] at h2
    rw [h2, Int.sign_eq_one_of_pos (by omega)]
    rfl

theorem hexPair_ne (a b : Nat) (ha : a < 256) (hb : b < 256) (hne : a ≠ b) :
    hexPair a ≠ hexPair b := by
  intro e
  unfold hexPair at e
  simp only [List.cons.injEq, and_true] at e
  exact hne (byte_eq_of_lowerHex a b ha hb e.1 e.2)

theorem beValue_foldl (bs : List Nat) (acc : Nat) :
    bs.foldl (fun acc b => acc * 256 + b) acc = acc * 256 ^ bs.length + beValue bs := by
  induction bs generalizing acc with
  | nil => simp [beValue]
  | cons b rest ih =>
    simp only [List.foldl_cons, List.length_cons, beValue]
    rw [ih, ih (0 * 256 + b), pow_succ]
    ring

theorem beValue_cons (b : Nat) (bs : List Nat) :
    beValue (b :: bs) = b * 256 ^ bs.length + beValue bs := by
  unfold beValue
  rw [List.foldl_cons, beValue_foldl]
  simp [beValue]

theorem beValue_lt (bs : List Nat) (h : ∀ b ∈ bs, b < 256) : beValue bs < 256 ^ bs.length := by
  induction bs with
  | nil => simp [beValue]
  | cons b rest ih =>
    have hb : b < 256 := h b (List.mem_cons_self _ _)
    have hr := ih (fun x hx => h x (List.mem_cons_of_mem _ hx))
    rw [beValue_cons, List.length_cons, pow_succ]
    calc b * 256 ^ rest.length + beValue rest
        < b * 256 ^ rest.length + 256 ^ rest.length := by omega
      _ = (b + 1) * 256 ^ rest.length := by ring
      _ ≤ 256 * 256 ^ rest.length := Nat.mul_le_mul_right _ (by omega)
      _ = 256 ^ rest.length * 256 := by ring

theorem beValue_cons_lt (a b : Nat) (as bs : List Nat) (hlen : as.length = bs.length)
    (has : ∀ x ∈ as, x < 256) (h : a < b) : beValue (a :: as) < beValue (b :: bs) := by
  have h1 := beValue_lt as has
  rw [beValue_cons, beValue_cons, hlen] at *
  calc a * 256 ^ bs.length + beValue as
      < a * 256 ^ bs.length + 256 ^ bs.length := by omega
    _ = (a + 1) * 256 ^ bs.length := by ring
    _ ≤ b * 256 ^ bs.length := Nat.mul_le_mul_right _ (by omega)
    _ ≤ b * 256 ^ bs.length + beValue bs := Nat.le_add_right _ _

theorem strcmp_textFrom_sign (as bs : List Nat) (ph : Bool) (hlen : as.length = bs.length)
    (has : ∀ x ∈ as, x < 256) (hbs : ∀ x ∈ bs, x < 256) :
    Int.sign (strcmp (textFrom ph as) (textFrom ph bs)) =
      Int.sign ((beValue as : Int) - (beValue bs : Int)) := by
  induction as generalizing bs ph with
  | nil =>
    cases bs with
    | nil => simp [textFrom, strcmp, beValue]
    | cons b rest => simp at hlen
  | cons a as ih =>
    cases bs with
    | nil => simp at hlen
    | cons b bs =>
      have hlen' : as.length = bs.length := by simpa using hlen
      have ha : a < 256 := has a (List.mem_cons_self _ _)
      have hb : b < 256 := hbs b (List.mem_cons_self _ _)
      have has' : ∀ x ∈ as, x < 256 := fun x hx => has x (List.mem_cons_of_mem _ hx)
      have hbs' : ∀ x ∈ bs, x < 256 := fun x hx => hbs x (List.mem_cons_of_mem _ hx)
      by_cases hab : a = b
      · subst hab
        have hval : (beValue (a :: as) : Int) - (beValue (a :: bs) : Int) =
            (beValue as : Int) - (beValue bs : Int) := by
          rw [beValue_cons, beValue_cons, hlen']
          push_cast
          ring
        rw [hval]
        cases ph with
        | false =>
          simp only [textFrom]
          rw [strcmp_append_same]
          exact ih bs true hlen' has' hbs'
        | true =>
          simp only [textFrom]
          rw [strcmp_append_same]
          by_cases hnil : as = []
          · have hnil' : bs = [] := by
              apply List.eq_nil_of_length_eq_zero
              rw [← hlen', hnil]
              rfl
            subst hnil
            subst hnil'
            simp [strcmp, beValue]
          · have hnil' : bs ≠ [] := by
              intro e
              apply hnil
              apply List.eq_nil_of_length_eq_zero
              rw [hlen', e]
              rfl
            rw [if_neg hnil, if_neg hnil']
            simp only [strcmp, if_true]
            exact ih bs false hlen' has' hbs'
      · have hsign : Int.sign ((beValue (a :: as) : Int) - (beValue (b :: bs) : Int)) =
            Int.sign ((a : Int) - (b : Int)) := by
          rcases Nat.lt_or_gt_of_ne hab with h | h
          · have := beValue_cons_lt a b as bs hlen' has' h
            rw [Int.sign_eq_neg_one_of_neg (by omega), Int.sign_eq_neg_one_of_neg (by omega)]
          · have := beValue_cons_lt b a bs as hlen'.symm hbs' h
            rw [Int.sign_eq_one_of_pos (by omega), Int.sign_eq_one_of_pos (by omega)]
        rw [hsign, ← strcmp_hexPair_sign a b ha hb hab]
        cases ph with
        | false =>
          simp only [textFrom]
          rw [strcmp_append_of_ne (hexPair a) (hexPair b) _ _ rfl (hexPair_ne a b ha hb hab)]
        | true =>
          simp only [textFrom]
          rw [strcmp_append_of_ne (hexPair a) (hexPair b) _ _ rfl (hexPair_ne a b ha hb hab)]

theorem expandedForm_eq_textFrom (l : List Nat) (hl : l.length = 16) :
    expandedForm l = textFrom false l := by
  obtain ⟨b0, b1, b2, b3, b4, b5, b6, b7, b8, b9, b10, b11, b12, b13, b14, b15, rfl⟩ :=
    list_sixteen l hl
  rfl

/-- C1: for every prefix length `n` with `0 ≤ n ≤ 32`, `getCIDRnetmask` applied to
the dotted-decimal rendering of the mask with `n` leading 1-bits returns `n`. -/
theorem getCIDRnetmask_prefixMask (n : Nat) (hn : n ≤ 32) :
    getCIDRnetmask (dottedDecimal (prefixMask n)).toList = .ok (n : Int) := by
  interval_cases n <;> decide

/-- Witness for C1 at `n = 24`, the mask `255.255.255.0`, with the examples
`255.255.255.255`, `255.0.0.0` and `0.0.0.0`. -/
theorem getCIDRnetmask_prefixMask_witness :
    (24 ≤ 32 ∧ dottedDecimal (prefixMask 24) = "255.255.255.0" ∧
      getCIDRnetmask "255.255.255.0".toList = .ok 24 ∧
      getCIDRnetmask "255.255.255.255".toList = .ok 32 ∧
      getCIDRnetmask "255.0.0.0".toList = .ok 8 ∧
      getCIDRnetmask "0.0.0.0".toList = .ok 0) ∧
      getCIDRnetmask (dottedDecimal (prefixMask 24)).toList = .ok (24 : Int) :=
  ⟨by decide, getCIDRnetmask_prefixMask 24 (by decide)⟩

/-- C2: for address and netmask strings of four dot-separated decimal tokens with
values in 0..255 (leading zeros allowed), `getIpv4NetworkAddress` returns
`n0.n1.n2.n3` where each `ni` is the decimal numeral, without leading zeros, of
the bitwise AND of the i-th address and mask values. -/
theorem getIpv4NetworkAddress_and (a0 a1 a2 a3 m0 m1 m2 m3 : List Char)
    (ha0 : IsOctet a0) (ha1 : IsOctet a1) (ha2 : IsOctet a2) (ha3 : IsOctet a3)
    (hm0 : IsOctet m0) (hm1 : IsOctet m1) (hm2 : IsOctet m2) (hm3 : IsOctet m3) :
    ∃ n0 n1 n2 n3 : List Char,
      getIpv4NetworkAddress (joinDots a0 a1 a2 a3) (joinDots m0 m1 m2 m3)
        = .ok (joinDots n0 n1 n2 n3) ∧
      IsCanonicalDec n0 (decValue a0 &&& decValue m0) ∧
      IsCanonicalDec n1 (decValue a1 &&& decValue m1) ∧
      IsCanonicalDec n2 (decValue a2 &&& decValue m2) ∧
      IsCanonicalDec n3 (decValue a3 &&& decValue m3) := by
  have b0 : decValue a0 &&& decValue m0 ≤ 255 := le_trans Nat.and_le_left ha0.2
  have b1 : decValue a1 &&& decValue m1 ≤ 255 := le_trans Nat.and_le_left ha1.2
  have b2 : decValue a2 &&& decValue m2 ≤ 255 := le_trans Nat.and_le_left ha2.2
  have b3 : decValue a3 &&& decValue m3 ≤ 255 := le_trans Nat.and_le_left ha3.2
  refine ⟨fmtD ((decValue a0 &&& decValue m0 : Nat) : Int),
    fmtD ((decValue a1 &&& decValue m1 : Nat) : Int),
    fmtD ((decValue a2 &&& decValue m2 : Nat) : Int),
    fmtD ((decValue a3 &&& decValue m3 : Nat) : Int), ?_,
    fmtD_canonical _ (by omega), fmtD_canonical _ (by omega),
    fmtD_canonical _ (by omega), fmtD_canonical _ (by omega)⟩
  unfold getIpv4NetworkAddress
  rw [tokenLoop_joinDots a0 a1 a2 a3 ha0.1 ha1.1 ha2.1 ha3.1
      (by have := ha0.2; omega) (by have := ha1.2; omega)
      (by have := ha2.2; omega) (by have := ha3.2; omega),
    tokenLoop_joinDots m0 m1 m2 m3 hm0.1 hm1.1 hm2.1 hm3.1
      (by have := hm0.2; omega) (by have := hm1.2; omega)
      (by have := hm2.2; omega) (by have := hm3.2; omega)]
  simp only [bind, Except.bind, andLoop_four, land_ofNat, sprintfDotted_four, sprintfInto]
  rw [if_pos, dotted4_eq_joinDots]
  rw [dotted4_length, fmtD_length _ (by omega), fmtD_length _ (by omega),
    fmtD_length _ (by omega), fmtD_length _ (by omega)]
  have := digitWidth_le (decValue a0 &&& decValue m0)
  have := digitWidth_le (decValue a1 &&& decValue m1)
  have := digitWidth_le (decValue a2 &&& decValue m2)
  have := digitWidth_le (decValue a3 &&& decValue m3)
  omega

set_option maxRecDepth 4000 in
/-- Witness for C2: the address `192.168.1.10` under the mask `255.255.255.0`. -/
theorem getIpv4NetworkAddress_and_witness :
    getIpv4NetworkAddress "192.168.1.10".toList "255.255.255.0".toList
        = .ok "192.168.1.0".toList ∧
      ∃ n0 n1 n2 n3 : List Char,
        getIpv4NetworkAddress (joinDots "192".toList "168".toList "1".toList "10".toList)
            (joinDots "255".toList "255".toList "255".toList "0".toList)
          = .ok (joinDots n0 n1 n2 n3) ∧
        IsCanonicalDec n0 (decValue "192".toList &&& decValue "255".toList) ∧
        IsCanonicalDec n1 (decValue "168".toList &&& decValue "255".toList) ∧
        IsCanonicalDec n2 (decValue "1".toList &&& decValue "255".toList) ∧
        IsCanonicalDec n3 (decValue "10".toList &&& decValue "0".toList) :=
  ⟨by decide, getIpv4NetworkAddress_and _ _ _ _ _ _ _ _ (by decide) (by decide) (by decide)
    (by decide) (by decide) (by decide) (by decide) (by decide)⟩

/-- C3: for every string of four dot-separated non-empty decimal tokens with
values in 0..255 (any number of leading zeros), `formatIPv4Address` rewrites the
string to `n0.n1.n2.n3` where each `ni` is the decimal numeral, without leading
zeros, of the value of the i-th token. -/
theorem formatIPv4Address_canonical (t0 t1 t2 t3 : List Char)
    (h0 : IsOctet t0) (h1 : IsOctet t1) (h2 : IsOctet t2) (h3 : IsOctet t3) :
    ∃ (n0 n1 n2 n3 : List Char) (r : Reformatted),
      formatIPv4Address (joinDots t0 t1 t2 t3) = .ok r ∧
      r.text = joinDots n0 n1 n2 n3 ∧
      IsCanonicalDec n0 (decValue t0) ∧ IsCanonicalDec n1 (decValue t1) ∧
      IsCanonicalDec n2 (decValue t2) ∧ IsCanonicalDec n3 (decValue t3) := by
  have b0 := h0.2
  have b1 := h1.2
  have b2 := h2.2
  have b3 := h3.2
  exact ⟨_, _, _, _, _,
    formatIPv4Address_joinDots t0 t1 t2 t3 h0.1 h1.1 h2.1 h3.1
      (by omega) (by omega) (by omega) (by omega),
    dotted4_eq_joinDots _ _ _ _,
    fmtD_canonical _ (by omega), fmtD_canonical _ (by omega),
    fmtD_canonical _ (by omega), fmtD_canonical _ (by omega)⟩

set_option maxRecDepth 4000 in
/-- Witness for C3: `010.008.000.001` becomes `10.8.0.1`. -/
theorem formatIPv4Address_canonical_witness :
    (formatIPv4Address "010.008.000.001".toList).map Reformatted.text
        = .ok "10.8.0.1".toList ∧
      ∃ (n0 n1 n2 n3 : List Char) (r : Reformatted),
        formatIPv4Address (joinDots "010".toList "008".toList "000".toList "001".toList)
          = .ok r ∧
        r.text = joinDots n0 n1 n2 n3 ∧
        IsCanonicalDec n0 (decValue "010".toList) ∧ IsCanonicalDec n1 (decValue "008".toList) ∧
        IsCanonicalDec n2 (decValue "000".toList) ∧ IsCanonicalDec n3 (decValue "001".toList) :=
  ⟨by decide, formatIPv4Address_canonical _ _ _ _ (by decide) (by decide) (by decide)
    (by decide)⟩

set_option maxRecDepth 4000 in
/-- C4, counterexample: `1000.0.0.0` consists of four decimal-digit tokens whose
values are representable as `int`, and its octet values equal its own, yet
comparing it with itself does not return 0: the canonical text `1000.0.0.0`
needs 11 bytes and `formatIPv4Address` reallocates 10, so the `sprintf` writes
past the buffer. -/
theorem compareIPv4Addresses_int_octets_counterexample :
    (IsDigits "1000".toList ∧ IsDigits "0".toList ∧
      decValue "1000".toList < 2 ^ 31 ∧ decValue "0".toList < 2 ^ 31) ∧
    joinDots "1000".toList "0".toList "0".toList "0".toList = "1000.0.0.0".toList ∧
    formatIPv4Address "1000.0.0.0".toList = .error .outOfBounds ∧
    compareIPv4Addresses "1000.0.0.0".toList "1000.0.0.0".toList = .error .outOfBounds ∧
    ¬ (compareIPv4Addresses "1000.0.0.0".toList "1000.0.0.0".toList = .ok 0 ↔
      decValue "1000".toList = decValue "1000".toList ∧
        decValue "0".toList = decValue "0".toList) := by
  decide

/-- C4, amended: for two strings of four dot-separated non-empty decimal-digit
tokens with values in 0..999 (any leading zeros), `compareIPv4Addresses` returns
a value, and that value is 0 if and only if the four parsed values of the first
string equal those of the second position by position. -/
theorem compareIPv4Addresses_eq_zero_iff (a0 a1 a2 a3 b0 b1 b2 b3 : List Char)
    (ha0 : IsDigits a0) (ha1 : IsDigits a1) (ha2 : IsDigits a2) (ha3 : IsDigits a3)
    (hb0 : IsDigits b0) (hb1 : IsDigits b1) (hb2 : IsDigits b2) (hb3 : IsDigits b3)
    (va0 : decValue a0 ≤ 999) (va1 : decValue a1 ≤ 999) (va2 : decValue a2 ≤ 999)
    (va3 : decValue a3 ≤ 999)
    (vb0 : decValue b0 ≤ 999) (vb1 : decValue b1 ≤ 999) (vb2 : decValue b2 ≤ 999)
    (vb3 : decValue b3 ≤ 999) :
    ∃ r : Int,
      compareIPv4Addresses (joinDots a0 a1 a2 a3) (joinDots b0 b1 b2 b3) = .ok r ∧
      (r = 0 ↔ decValue a0 = decValue b0 ∧ decValue a1 = decValue b1 ∧
        decValue a2 = decValue b2 ∧ decValue a3 = decValue b3) := by
  refine ⟨strcmp (dotted4 (decValue a0) (decValue a1) (decValue a2) (decValue a3))
    (dotted4 (decValue b0) (decValue b1) (decValue b2) (decValue b3)), ?_, ?_⟩
  · unfold compareIPv4Addresses
    rw [formatIPv4Address_joinDots a0 a1 a2 a3 ha0 ha1 ha2 ha3 (by omega) (by omega) (by omega)
        (by omega),
      formatIPv4Address_joinDots b0 b1 b2 b3 hb0 hb1 hb2 hb3 (by omega) (by omega) (by omega)
        (by omega)]
    rfl
  · constructor
    · intro h
      have e := strcmp_eq_zero _ _ (dotted4_no_nul _ _ _ _) (dotted4_no_nul _ _ _ _) h
      exact dotted4_inj _ _ _ _ _ _ _ _ (by omega) (by omega) (by omega) (by omega)
        (by omega) (by omega) (by omega) (by omega) e
    · rintro ⟨e0, e1, e2, e3⟩
      rw [e0, e1, e2, e3]
      exact strcmp_self _

set_option maxRecDepth 4000 in
/-- Witness for C4: `010.008.000.001` against `10.8.0.1` compares as 0. -/
theorem compareIPv4Addresses_eq_zero_iff_witness :
    compareIPv4Addresses "010.008.000.001".toList "10.8.0.1".toList = .ok 0 ∧
      ∃ r : Int,
        compareIPv4Addresses (joinDots "010".toList "008".toList "000".toList "001".toList)
          (joinDots "10".toList "8".toList "0".toList "1".toList) = .ok r ∧
        (r = 0 ↔ decValue "010".toList = decValue "10".toList ∧
          decValue "008".toList = decValue "8".toList ∧
          decValue "000".toList = decValue "0".toList ∧
          decValue "001".toList = decValue "1".toList) :=
  ⟨by decide, compareIPv4Addresses_eq_zero_iff _ _ _ _ _ _ _ _
    (by decide) (by decide) (by decide) (by decide) (by decide) (by decide) (by decide)
    (by decide) (by decide) (by decide) (by decide) (by decide) (by decide) (by decide)
    (by decide) (by decide)⟩

/-- C5: when the numeric IPv6 parse accepts the input with bytes `b[0..15]`,
`formatIPv6Address` rewrites the string to exactly 39 characters: for `k < 8` the
four characters from position `5k` are the two-digit lowercase hex of `b[2k]`
followed by that of `b[2k+1]`, for `k < 7` position `5k+4` holds a colon, and no
colon is followed by a colon. -/
theorem formatIPv6Address_expanded (inet_pton : Ipv6Parse) (s : List Char) (a : in6_addr)
    (h : inet_pton s = some a) :
    ∃ r : Reformatted,
      formatIPv6Address inet_pton s = .ok r ∧
      r.text.length = 39 ∧
      (∀ k, k < 8 → (r.text.drop (5 * k)).take 4 =
        hexPair (a.s6_addr.getD (2 * k) 0) ++ hexPair (a.s6_addr.getD (2 * k + 1) 0)) ∧
      (∀ k, k < 7 → r.text[5 * k + 4]? = some ':') ∧
      (∀ i, r.text[i]? = some ':' → r.text[i + 1]? ≠ some ':') := by
  refine ⟨_, formatIPv6Address_parsed inet_pton s a h, expandedForm_length a, ?_, ?_, ?_⟩
  · obtain ⟨b0, b1, b2, b3, b4, b5, b6, b7, b8, b9, b10, b11, b12, b13, b14, b15, hl, hb0, hb1,
      hb2, hb3, hb4, hb5, hb6, hb7, hb8, hb9, hb10, hb11, hb12, hb13, hb14, hb15⟩ := a.bytes
    intro k hk
    rw [hl]
    interval_cases k <;> rfl
  · obtain ⟨b0, b1, b2, b3, b4, b5, b6, b7, b8, b9, b10, b11, b12, b13, b14, b15, hl, hb0, hb1,
      hb2, hb3, hb4, hb5, hb6, hb7, hb8, hb9, hb10, hb11, hb12, hb13, hb14, hb15⟩ := a.bytes
    intro k hk
    rw [hl]
    interval_cases k <;> rfl
  · obtain ⟨b0, b1, b2, b3, b4, b5, b6, b7, b8, b9, b10, b11, b12, b13, b14, b15, hl, hb0, hb1,
      hb2, hb3, hb4, hb5, hb6, hb7, hb8, hb9, hb10, hb11, hb12, hb13, hb14, hb15⟩ := a.bytes
    intro i
    simp only [hl]
    by_cases hi : i < 39
    · interval_cases i <;>
        simp [expandedForm, hexGroups, hexPair, List.intercalate, lowerHex_ne_colon]
    · intro hc
      rw [List.getElem?_eq_none] at hc
      · exact absurd hc (by simp)
      · have := expandedForm_length a
        rw [hl] at this
        omega

set_option maxRecDepth 8000 in
/-- Witness for C5: `2001:db8::1428:57ab` is rewritten to
`2001:0db8:0000:0000:0000:0000:1428:57ab`. -/
theorem formatIPv6Address_expanded_witness :
    (sampleParse "2001:db8::1428:57ab".toList = some addr57ab ∧
      (formatIPv6Address sampleParse "2001:db8::1428:57ab".toList).map Reformatted.text
        = .ok "2001:0db8:0000:0000:0000:0000:1428:57ab".toList) ∧
    ∃ r : Reformatted,
      formatIPv6Address sampleParse "2001:db8::1428:57ab".toList = .ok r ∧
      r.text.length = 39 ∧
      (∀ k, k < 8 → (r.text.drop (5 * k)).take 4 =
        hexPair (addr57ab.s6_addr.getD (2 * k) 0) ++
          hexPair (addr57ab.s6_addr.getD (2 * k + 1) 0)) ∧
      (∀ k, k < 7 → r.text[5 * k + 4]? = some ':') ∧
      (∀ i, r.text[i]? = some ':' → r.text[i + 1]? ≠ some ':') :=
  ⟨⟨rfl, by decide⟩, formatIPv6Address_expanded sampleParse _ addr57ab rfl⟩

/-- C6: for two strings that both pass the numeric IPv6 parse,
`compareIPv6Addresses` returns a value, and that value is 0 if and only if the
two strings parse to the same 16-byte address. -/
theorem compareIPv6Addresses_eq_zero_iff (inet_pton : Ipv6Parse) (s t : List Char)
    (a b : in6_addr) (ha : inet_pton s = some a) (hb : inet_pton t = some b) :
    ∃ r : Int, compareIPv6Addresses inet_pton s t = .ok r ∧ (r = 0 ↔ a = b) := by
  refine ⟨strcmp (expandedForm a.s6_addr) (expandedForm b.s6_addr), ?_, ?_⟩
  · unfold compareIPv6Addresses
    rw [formatIPv6Address_parsed inet_pton s a ha, formatIPv6Address_parsed inet_pton t b hb]
    rfl
  · constructor
    · intro h
      exact expandedForm_inj a b
        (strcmp_eq_zero _ _ (expandedForm_no_nul a) (expandedForm_no_nul b) h)
    · intro h
      rw [h]
      exact strcmp_self _

set_option maxRecDepth 8000 in
/-- Witness for C6: `2001:db8::1428:57ab` against
`2001:0db8:0000:0000:0000:0000:1428:57ab` compares as 0. -/
theorem compareIPv6Addresses_eq_zero_iff_witness :
    (sampleParse "2001:db8::1428:57ab".toList = some addr57ab ∧
      sampleParse "2001:0db8:0000:0000:0000:0000:1428:57ab".toList = some addr57ab ∧
      compareIPv6Addresses sampleParse "2001:db8::1428:57ab".toList
        "2001:0db8:0000:0000:0000:0000:1428:57ab".toList = .ok 0) ∧
    ∃ r : Int,
      compareIPv6Addresses sampleParse "2001:db8::1428:57ab".toList
        "2001:0db8:0000:0000:0000:0000:1428:57ab".toList = .ok r ∧
      (r = 0 ↔ addr57ab = addr57ab) :=
  ⟨⟨rfl, rfl, by decide⟩,
    compareIPv6Addresses_eq_zero_iff sampleParse _ _ addr57ab addr57ab rfl rfl⟩

/-- C7, at the failing input: for every address that passes the numeric IPv6
parse, `getIpv6NetworkAddress` with prefix length 128 does not return the
expanded string: `networkAddressPartSize` is 40, so after the sixteenth byte
(`i = 39`) the first loop runs once more and reads `s6_addr[16]`, outside the
address (it would then write the pair at `networkAddress[39..40]`, past the 40
bytes allocated). -/
theorem getIpv6NetworkAddress_prefix128 (inet_pton : Ipv6Parse) (s : List Char) (a : in6_addr)
    (h : inet_pton s = some a) :
    getIpv6NetworkAddress inet_pton s 128 = .error .outOfBounds := by
  rw [getIpv6NetworkAddress_eq_fillHex inet_pton s a 128 h]
  have e : Int.tdiv 128 8 * 2 + Int.tdiv (Int.tdiv 128 8) 2 = 40 := by decide
  rw [e]
  exact fillHex_forty a

set_option maxRecDepth 100000 in
/-- Witness for C7: `2001:db8::1` with prefix length 128 faults, while with
prefix length 64 the 39 characters of the specification's example are written
and byte 39 of the buffer, where the terminating NUL belongs, is never written. -/
theorem getIpv6NetworkAddress_prefix128_witness :
    (sampleParse "2001:db8::1".toList = some addrDb81 ∧
      getIpv6NetworkAddress sampleParse "2001:db8::1".toList 64 =
        .ok (some ("2001:0db8:0000:0000:0000:0000:0000:0000".toList.map some ++ [none]))) ∧
    getIpv6NetworkAddress sampleParse "2001:db8::1".toList 128 = .error .outOfBounds :=
  ⟨⟨rfl, by decide⟩, getIpv6NetworkAddress_prefix128 sampleParse _ addrDb81 rfl⟩

/-- C9: when the input fails the numeric IPv6 parse, `formatIPv6Address` leaves
the caller's string as it was: the same contents, and `realloc` is not called. -/
theorem formatIPv6Address_unparsed (inet_pton : Ipv6Parse) (s : List Char)
    (h : inet_pton s = none) :
    formatIPv6Address inet_pton s = .ok { text := s, reallocTo := none } := by
  unfold formatIPv6Address
  rw [h]
  rfl

/-- Witness for C9: `not-valid` is left untouched. -/
theorem formatIPv6Address_unparsed_witness :
    sampleParse "not-valid".toList = none ∧
      formatIPv6Address sampleParse "not-valid".toList
        = .ok { text := "not-valid".toList, reallocTo := none } :=
  ⟨rfl, formatIPv6Address_unparsed sampleParse _ rfl⟩

/-- C10: with the numeric-host resolver as an external function,
`isValidIpAddress` returns 0 exactly when the input is non-null and the resolver
succeeds with family `AF_INET` or `AF_INET6`; then a non-null out-parameter
receives 4 for `AF_INET` and 6 for `AF_INET6`. In every other case (null input,
resolver failure, any other family) it returns 1 and the out-parameter is left
unwritten. -/
theorem isValidIpAddress_contract (getaddrinfo : Resolver) (ipAddr : Option (List Char))
    (ipv : Option (Option Int)) :
    ((isValidIpAddress getaddrinfo ipAddr ipv).ret = 0 ↔
      ∃ text, ipAddr = some text ∧
        (getaddrinfo text = some AF_INET ∨ getaddrinfo text = some AF_INET6)) ∧
    (∀ text, ipAddr = some text → getaddrinfo text = some AF_INET →
      (isValidIpAddress getaddrinfo ipAddr ipv).ipv = ipv.map (fun _ => some 4)) ∧
    (∀ text, ipAddr = some text → getaddrinfo text = some AF_INET6 →
      (isValidIpAddress getaddrinfo ipAddr ipv).ipv = ipv.map (fun _ => some 6)) ∧
    ((isValidIpAddress getaddrinfo ipAddr ipv).ret ≠ 0 →
      (isValidIpAddress getaddrinfo ipAddr ipv).ret = 1 ∧
      (isValidIpAddress getaddrinfo ipAddr ipv).ipv = ipv ∧
      (isValidIpAddress getaddrinfo ipAddr ipv).wrote = false) := by
  have h46 : AF_INET ≠ AF_INET6 := by decide
  cases ipAddr with
  | none => simp [isValidIpAddress]
  | some text =>
    cases hres : getaddrinfo text with
    | none => simp [isValidIpAddress, hres]
    | some fam =>
      by_cases h4 : fam = AF_INET
      · subst h4
        simp [isValidIpAddress, hres, h46]
      · by_cases h6 : fam = AF_INET6
        · subst h6
          simp [isValidIpAddress, hres, h46.symm]
        · simp [isValidIpAddress, hres, h4, h6]

/-- Witness for C10: the sample resolver on an IPv4 literal, an IPv6 literal, a
family that is neither, an unresolvable string and a null input. -/
theorem isValidIpAddress_contract_witness :
    (isValidIpAddress sampleResolver (some "192.168.1.10".toList) (some none)
        = { ret := 0, ipv := some (some 4), wrote := true, acquired := 1, released := 1 } ∧
      isValidIpAddress sampleResolver (some "2001:db8::1".toList) (some (some 0))
        = { ret := 0, ipv := some (some 6), wrote := true, acquired := 1, released := 1 } ∧
      (isValidIpAddress sampleResolver (some "unix".toList) (some none)).ret = 1 ∧
      (isValidIpAddress sampleResolver (some "not-an-ip".toList) (some none)).ret = 1 ∧
      (isValidIpAddress sampleResolver none (some none)).ret = 1) ∧
    ((isValidIpAddress sampleResolver (some "192.168.1.10".toList) (some none)).ret = 0 ↔
      ∃ text, some "192.168.1.10".toList = some text ∧
        (sampleResolver text = some AF_INET ∨ sampleResolver text = some AF_INET6)) :=
  ⟨by decide, (isValidIpAddress_contract sampleResolver _ (some none)).1⟩

/-- C11: `formatIPv4Address` is idempotent on well-formed input: for every string
of four dot-separated decimal-digit tokens with values in 0..255, formatting the
output of `formatIPv4Address` again yields the same string; and a string whose
four tokens are already canonical (no leading zeros) is returned unchanged. -/
theorem formatIPv4Address_idempotent (t0 t1 t2 t3 : List Char)
    (h0 : IsOctet t0) (h1 : IsOctet t1) (h2 : IsOctet t2) (h3 : IsOctet t3) :
    ∃ r1 r2 : Reformatted,
      formatIPv4Address (joinDots t0 t1 t2 t3) = .ok r1 ∧
      formatIPv4Address r1.text = .ok r2 ∧
      r2.text = r1.text ∧
      (IsCanonicalDec t0 (decValue t0) → IsCanonicalDec t1 (decValue t1) →
        IsCanonicalDec t2 (decValue t2) → IsCanonicalDec t3 (decValue t3) →
        r1.text = joinDots t0 t1 t2 t3) := by
  have b0 := h0.2
  have b1 := h1.2
  have b2 := h2.2
  have b3 := h3.2
  refine ⟨_, _, formatIPv4Address_joinDots t0 t1 t2 t3 h0.1 h1.1 h2.1 h3.1
      (by omega) (by omega) (by omega) (by omega),
    formatIPv4Address_dotted4 _ _ _ _ (by omega) (by omega) (by omega) (by omega), rfl, ?_⟩
  intro c0 c1 c2 c3
  show dotted4 _ _ _ _ = _
  rw [dotted4_eq_joinDots, c0.eq_fmtD (by omega), c1.eq_fmtD (by omega),
    c2.eq_fmtD (by omega), c3.eq_fmtD (by omega)]

set_option maxRecDepth 4000 in
/-- Witness for C11: `010.008.000.001` becomes `10.8.0.1`, and the canonical
`10.8.0.1` is left as it is. -/
theorem formatIPv4Address_idempotent_witness :
    ((formatIPv4Address "010.008.000.001".toList).map Reformatted.text
        = .ok "10.8.0.1".toList ∧
      (formatIPv4Address "10.8.0.1".toList).map Reformatted.text = .ok "10.8.0.1".toList) ∧
    ∃ r1 r2 : Reformatted,
      formatIPv4Address (joinDots "10".toList "8".toList "0".toList "1".toList) = .ok r1 ∧
      formatIPv4Address r1.text = .ok r2 ∧
      r2.text = r1.text ∧
      r1.text = joinDots "10".toList "8".toList "0".toList "1".toList := by
  refine ⟨by decide, ?_⟩
  obtain ⟨r1, r2, e1, e2, e3, e4⟩ :=
    formatIPv4Address_idempotent "10".toList "8".toList "0".toList "1".toList
      (by decide) (by decide) (by decide) (by decide)
  exact ⟨r1, r2, e1, e2, e3, e4 (by decide) (by decide) (by decide) (by decide)⟩

/-- C12: for every netmask string of four dot-separated tokens, whatever integer
values they parse to and canonical mask or not, `getCIDRnetmask` returns a value
in the range 0..32. -/
theorem getCIDRnetmask_range (t0 t1 t2 t3 : List Char)
    (h0 : IsToken t0) (h1 : IsToken t1) (h2 : IsToken t2) (h3 : IsToken t3) :
    ∃ r : Int, getCIDRnetmask (joinDots t0 t1 t2 t3) = .ok r ∧ 0 ≤ r ∧ r ≤ 32 := by
  rw [getCIDRnetmask_joinDots t0 t1 t2 t3 h0 h1 h2 h3]
  obtain ⟨r, hr, r1, r2⟩ := cidrScan_bounds 4 0
    [some (atoi t0), some (atoi t1), some (atoi t2), some (atoi t3)] 0 (by
      intro j _ hj
      have : j < 4 := by omega
      interval_cases j <;> exact ⟨_, rfl⟩)
  exact ⟨r, hr, r1, by simpa using r2⟩

set_option maxRecDepth 4000 in
/-- Witness for C12: the non-canonical mask `255.4294967551.-1.254`, whose second
token exceeds the range of `int` and parses to 255, gives 16. -/
theorem getCIDRnetmask_range_witness :
    (joinDots "255".toList "4294967551".toList "-1".toList "254".toList
        = "255.4294967551.-1.254".toList ∧
      getCIDRnetmask "255.4294967551.-1.254".toList = .ok 16) ∧
    ∃ r : Int,
      getCIDRnetmask (joinDots "255".toList "4294967551".toList "-1".toList "254".toList)
        = .ok r ∧ 0 ≤ r ∧ r ≤ 32 :=
  ⟨by decide, getCIDRnetmask_range _ _ _ _ (by decide) (by decide) (by decide) (by decide)⟩

/-- C13: `compareIPv4Addresses` is a three-way comparator over the canonical
forms: for well-formed four-token strings `a`, `b`, `c` (octets 0..255, any
leading zeros), let `n0.n1.n2.n3` and `m0.m1.m2.m3` be the canonical strings of
`a` and `b`, each `ni`, `mi` the decimal numeral without leading zeros of the
token's value. These are the texts `formatIPv4Address` returns, and the result
for `(a, b)` is negative, zero or positive exactly as the canonical string of
`a` is byte-wise lexicographically less than, equal to or greater than the
canonical string of `b`; the sign for `(a, b)` is the opposite of the sign for
`(b, a)`; and results `≤ 0` for `(a, b)` and `(b, c)` give a result `≤ 0` for
`(a, c)`. -/
theorem compareIPv4Addresses_three_way (a0 a1 a2 a3 b0 b1 b2 b3 c0 c1 c2 c3 : List Char)
    (ha0 : IsOctet a0) (ha1 : IsOctet a1) (ha2 : IsOctet a2) (ha3 : IsOctet a3)
    (hb0 : IsOctet b0) (hb1 : IsOctet b1) (hb2 : IsOctet b2) (hb3 : IsOctet b3)
    (hc0 : IsOctet c0) (hc1 : IsOctet c1) (hc2 : IsOctet c2) (hc3 : IsOctet c3) :
    ∃ (n0 n1 n2 n3 m0 m1 m2 m3 : List Char) (ca cb : Reformatted) (rab rba rbc rac : Int),
      (IsCanonicalDec n0 (decValue a0) ∧ IsCanonicalDec n1 (decValue a1) ∧
        IsCanonicalDec n2 (decValue a2) ∧ IsCanonicalDec n3 (decValue a3)) ∧
      (IsCanonicalDec m0 (decValue b0) ∧ IsCanonicalDec m1 (decValue b1) ∧
        IsCanonicalDec m2 (decValue b2) ∧ IsCanonicalDec m3 (decValue b3)) ∧
      formatIPv4Address (joinDots a0 a1 a2 a3) = .ok ca ∧
      ca.text = joinDots n0 n1 n2 n3 ∧
      formatIPv4Address (joinDots b0 b1 b2 b3) = .ok cb ∧
      cb.text = joinDots m0 m1 m2 m3 ∧
      compareIPv4Addresses (joinDots a0 a1 a2 a3) (joinDots b0 b1 b2 b3) = .ok rab ∧
      compareIPv4Addresses (joinDots b0 b1 b2 b3) (joinDots a0 a1 a2 a3) = .ok rba ∧
      compareIPv4Addresses (joinDots b0 b1 b2 b3) (joinDots c0 c1 c2 c3) = .ok rbc ∧
      compareIPv4Addresses (joinDots a0 a1 a2 a3) (joinDots c0 c1 c2 c3) = .ok rac ∧
      (rab < 0 ↔ lexLt (joinDots n0 n1 n2 n3) (joinDots m0 m1 m2 m3) = true) ∧
      (rab = 0 ↔ joinDots n0 n1 n2 n3 = joinDots m0 m1 m2 m3) ∧
      (0 < rab ↔ lexLt (joinDots m0 m1 m2 m3) (joinDots n0 n1 n2 n3) = true) ∧
      Int.sign rab = -Int.sign rba ∧
      (rab ≤ 0 → rbc ≤ 0 → rac ≤ 0) := by
  have va0 := ha0.2
  have va1 := ha1.2
  have va2 := ha2.2
  have va3 := ha3.2
  have vb0 := hb0.2
  have vb1 := hb1.2
  have vb2 := hb2.2
  have vb3 := hb3.2
  have vc0 := hc0.2
  have vc1 := hc1.2
  have vc2 := hc2.2
  have vc3 := hc3.2
  refine ⟨fmtD (decValue a0), fmtD (decValue a1), fmtD (decValue a2), fmtD (decValue a3),
    fmtD (decValue b0), fmtD (decValue b1), fmtD (decValue b2), fmtD (decValue b3),
    _, _, _, _, _, _,
    ⟨fmtD_canonical _ (by omega), fmtD_canonical _ (by omega),
      fmtD_canonical _ (by omega), fmtD_canonical _ (by omega)⟩,
    ⟨fmtD_canonical _ (by omega), fmtD_canonical _ (by omega),
      fmtD_canonical _ (by omega), fmtD_canonical _ (by omega)⟩,
    formatIPv4Address_joinDots a0 a1 a2 a3 ha0.1 ha1.1 ha2.1 ha3.1
      (by omega) (by omega) (by omega) (by omega),
    dotted4_eq_joinDots _ _ _ _,
    formatIPv4Address_joinDots b0 b1 b2 b3 hb0.1 hb1.1 hb2.1 hb3.1
      (by omega) (by omega) (by omega) (by omega),
    dotted4_eq_joinDots _ _ _ _,
    compareIPv4Addresses_joinDots a0 a1 a2 a3 b0 b1 b2 b3 ha0.1 ha1.1 ha2.1 ha3.1
      hb0.1 hb1.1 hb2.1 hb3.1 (by omega) (by omega) (by omega) (by omega)
      (by omega) (by omega) (by omega) (by omega),
    compareIPv4Addresses_joinDots b0 b1 b2 b3 a0 a1 a2 a3 hb0.1 hb1.1 hb2.1 hb3.1
      ha0.1 ha1.1 ha2.1 ha3.1 (by omega) (by omega) (by omega) (by omega)
      (by omega) (by omega) (by omega) (by omega),
    compareIPv4Addresses_joinDots b0 b1 b2 b3 c0 c1 c2 c3 hb0.1 hb1.1 hb2.1 hb3.1
      hc0.1 hc1.1 hc2.1 hc3.1 (by omega) (by omega) (by omega) (by omega)
      (by omega) (by omega) (by omega) (by omega),
    compareIPv4Addresses_joinDots a0 a1 a2 a3 c0 c1 c2 c3 ha0.1 ha1.1 ha2.1 ha3.1
      hc0.1 hc1.1 hc2.1 hc3.1 (by omega) (by omega) (by omega) (by omega)
      (by omega) (by omega) (by omega) (by omega),
    ?_, ⟨?_, ?_⟩, ?_,
    strcmp_sign_swap _ _,
    strcmp_le_trans _ _ _ (dotted4_no_nul _ _ _ _) (dotted4_no_nul _ _ _ _)⟩
  · rw [← dotted4_eq_joinDots, ← dotted4_eq_joinDots]
    exact strcmp_neg_iff _ _ (dotted4_no_nul _ _ _ _)
  · rw [← dotted4_eq_joinDots, ← dotted4_eq_joinDots]
    exact strcmp_eq_zero _ _ (dotted4_no_nul _ _ _ _) (dotted4_no_nul _ _ _ _)
  · intro e
    rw [← dotted4_eq_joinDots, ← dotted4_eq_joinDots] at e
    rw [e]
    exact strcmp_self _
  · rw [← dotted4_eq_joinDots, ← dotted4_eq_joinDots]
    exact strcmp_pos_iff _ _ (dotted4_no_nul _ _ _ _)

set_option maxRecDepth 8000 in
/-- Witness for C13: `010.008.000.001`, `10.8.0.2` and `9.8.0.1`. The first is
compared through its canonical string `10.8.0.1`: it equals `10.8.0.1`, although
the raw strings differ, and precedes `10.8.0.2`; the order is that of the
strings, so `10.8.0.2` precedes `9.8.0.1`. -/
theorem compareIPv4Addresses_three_way_witness :
    (compareIPv4Addresses "010.008.000.001".toList "10.8.0.1".toList = .ok 0 ∧
      strcmp "010.008.000.001".toList "10.8.0.1".toList = -1 ∧
      compareIPv4Addresses "010.008.000.001".toList "10.8.0.2".toList = .ok (-1) ∧
      compareIPv4Addresses "10.8.0.2".toList "010.008.000.001".toList = .ok 1 ∧
      compareIPv4Addresses "10.8.0.2".toList "9.8.0.1".toList = .ok (-8) ∧
      compareIPv4Addresses "010.008.000.001".toList "9.8.0.1".toList = .ok (-8) ∧
      joinDots "010".toList "008".toList "000".toList "001".toList
        = "010.008.000.001".toList ∧
      IsCanonicalDec "10".toList (decValue "010".toList) ∧
      IsCanonicalDec "8".toList (decValue "008".toList) ∧
      IsCanonicalDec "0".toList (decValue "000".toList) ∧
      IsCanonicalDec "1".toList (decValue "001".toList) ∧
      lexLt "10.8.0.1".toList "10.8.0.2".toList = true) ∧
    ∃ (n0 n1 n2 n3 m0 m1 m2 m3 : List Char) (ca cb : Reformatted) (rab rba rbc rac : Int),
      (IsCanonicalDec n0 (decValue "010".toList) ∧ IsCanonicalDec n1 (decValue "008".toList) ∧
        IsCanonicalDec n2 (decValue "000".toList) ∧
        IsCanonicalDec n3 (decValue "001".toList)) ∧
      (IsCanonicalDec m0 (decValue "10".toList) ∧ IsCanonicalDec m1 (decValue "8".toList) ∧
        IsCanonicalDec m2 (decValue "0".toList) ∧ IsCanonicalDec m3 (decValue "2".toList)) ∧
      formatIPv4Address (joinDots "010".toList "008".toList "000".toList "001".toList)
        = .ok ca ∧
      ca.text = joinDots n0 n1 n2 n3 ∧
      formatIPv4Address (joinDots "10".toList "8".toList "0".toList "2".toList) = .ok cb ∧
      cb.text = joinDots m0 m1 m2 m3 ∧
      compareIPv4Addresses (joinDots "010".toList "008".toList "000".toList "001".toList)
        (joinDots "10".toList "8".toList "0".toList "2".toList) = .ok rab ∧
      compareIPv4Addresses (joinDots "10".toList "8".toList "0".toList "2".toList)
        (joinDots "010".toList "008".toList "000".toList "001".toList) = .ok rba ∧
      compareIPv4Addresses (joinDots "10".toList "8".toList "0".toList "2".toList)
        (joinDots "9".toList "8".toList "0".toList "1".toList) = .ok rbc ∧
      compareIPv4Addresses (joinDots "010".toList "008".toList "000".toList "001".toList)
        (joinDots "9".toList "8".toList "0".toList "1".toList) = .ok rac ∧
      (rab < 0 ↔ lexLt (joinDots n0 n1 n2 n3) (joinDots m0 m1 m2 m3) = true) ∧
      (rab = 0 ↔ joinDots n0 n1 n2 n3 = joinDots m0 m1 m2 m3) ∧
      (0 < rab ↔ lexLt (joinDots m0 m1 m2 m3) (joinDots n0 n1 n2 n3) = true) ∧
      Int.sign rab = -Int.sign rba ∧
      (rab ≤ 0 → rbc ≤ 0 → rac ≤ 0) :=
  ⟨by decide, compareIPv4Addresses_three_way _ _ _ _ _ _ _ _ _ _ _ _
    (by decide) (by decide) (by decide) (by decide) (by decide) (by decide)
    (by decide) (by decide) (by decide) (by decide) (by decide) (by decide)⟩

set_option maxRecDepth 4000 in
/-- C15: the stop-at-first-irregular-byte policy of `getCIDRnetmask`. For a mask
`o0.o1.o2.o3` of octets 0..255, let `k ≤ 4` be such that the octets before
position `k` are among 128, 192, 224, 240, 248, 252, 254, 255 and the octet at
position `k`, if `k < 4`, is not. Then the result is the sum of the numbers of
1-bits of the octets before position `k`, and any mask `u0.u1.u2.u3` with the
same octets before position `k` and an octet outside the eight values at
position `k` gives the same result. In particular `0.255.255.255` gives 0,
`255.255.0.255` gives 16 and `255.0.255.0` gives 8. -/
theorem getCIDRnetmask_stop_policy (t0 t1 t2 t3 u0 u1 u2 u3 : List Char)
    (h0 : IsOctet t0) (h1 : IsOctet t1) (h2 : IsOctet t2) (h3 : IsOctet t3)
    (g0 : IsOctet u0) (g1 : IsOctet u1) (g2 : IsOctet u2) (g3 : IsOctet u3)
    (k : Nat) (hk : k ≤ 4)
    (hreg : ∀ j, j < k →
      regularByte ([decValue t0, decValue t1, decValue t2, decValue t3].getD j 0) = true)
    (hirr : k < 4 →
      regularByte ([decValue t0, decValue t1, decValue t2, decValue t3].getD k 0) = false) :
    getCIDRnetmask (joinDots t0 t1 t2 t3) =
      .ok (((([decValue t0, decValue t1, decValue t2, decValue t3].take k).map
        onesInOctet).sum : Nat) : Int) ∧
    ((∀ j, j < k → [decValue u0, decValue u1, decValue u2, decValue u3].getD j 0 =
        [decValue t0, decValue t1, decValue t2, decValue t3].getD j 0) →
      (k < 4 →
        regularByte ([decValue u0, decValue u1, decValue u2, decValue u3].getD k 0) = false) →
      getCIDRnetmask (joinDots u0 u1 u2 u3) = getCIDRnetmask (joinDots t0 t1 t2 t3)) ∧
    (getCIDRnetmask "0.255.255.255".toList = .ok 0 ∧
      getCIDRnetmask "255.255.0.255".toList = .ok 16 ∧
      getCIDRnetmask "255.0.255.0".toList = .ok 8) := by
  have et : stopSum [decValue t0, decValue t1, decValue t2, decValue t3] =
      (([decValue t0, decValue t1, decValue t2, decValue t3].take k).map onesInOctet).sum :=
    stopSum_take _ k (by simpa using hk) hreg (by simpa using hirr)
  refine ⟨by rw [getCIDRnetmask_octets t0 t1 t2 t3 h0 h1 h2 h3, et], ?_, by decide⟩
  intro hsame hirru
  have eu : stopSum [decValue u0, decValue u1, decValue u2, decValue u3] =
      (([decValue u0, decValue u1, decValue u2, decValue u3].take k).map onesInOctet).sum :=
    stopSum_take _ k (by simpa using hk) (fun j hj => by rw [hsame j hj]; exact hreg j hj)
      (by simpa using hirru)
  have etake : [decValue u0, decValue u1, decValue u2, decValue u3].take k =
      [decValue t0, decValue t1, decValue t2, decValue t3].take k := by
    apply List.ext_getElem?
    intro j
    by_cases hj : j < k
    · have := hsame j hj
      rw [List.getElem?_take_of_lt hj, List.getElem?_take_of_lt hj]
      have hj4 : j < 4 := by omega
      interval_cases j <;> simpa using this
    · rw [List.getElem?_take_eq_none (by omega), List.getElem?_take_eq_none (by omega)]
  rw [getCIDRnetmask_octets t0 t1 t2 t3 h0 h1 h2 h3,
    getCIDRnetmask_octets u0 u1 u2 u3 g0 g1 g2 g3, et, eu, etake]

set_option maxRecDepth 4000 in
/-- Witness for C15: `255.255.0.255` and `255.255.7.0` (`k = 2`) both give 16;
`0.255.255.255` gives 0 and `255.0.255.0` gives 8. -/
theorem getCIDRnetmask_stop_policy_witness :
    (getCIDRnetmask "0.255.255.255".toList = .ok 0 ∧
      getCIDRnetmask "255.255.0.255".toList = .ok 16 ∧
      getCIDRnetmask "255.0.255.0".toList = .ok 8 ∧
      getCIDRnetmask "255.255.7.0".toList = .ok 16) ∧
    (getCIDRnetmask (joinDots "255".toList "255".toList "0".toList "255".toList) =
        .ok (((([decValue "255".toList, decValue "255".toList, decValue "0".toList,
          decValue "255".toList].take 2).map onesInOctet).sum : Nat) : Int) ∧
      getCIDRnetmask (joinDots "255".toList "255".toList "7".toList "0".toList) =
        getCIDRnetmask (joinDots "255".toList "255".toList "0".toList "255".toList)) := by
  refine ⟨by decide, ?_⟩
  obtain ⟨e1, e2, _⟩ := getCIDRnetmask_stop_policy
    "255".toList "255".toList "0".toList "255".toList
    "255".toList "255".toList "7".toList "0".toList
    (by decide) (by decide) (by decide) (by decide)
    (by decide) (by decide) (by decide) (by decide) 2 (by decide)
    (by intro j hj; interval_cases j <;> decide) (by intro _; decide)
  exact ⟨e1, e2 (by intro j hj; interval_cases j <;> decide) (by intro _; decide)⟩

set_option maxRecDepth 4000 in
/-- C16, counterexample: for `255.128.255.0`, four octets in 0..255, the mask
value has 9 leading 1-bits but `getCIDRnetmask` returns 17: the partially set
octet 128 does not end the scan and the third octet adds 8. For `255.193.0.0`
the mask has 10 leading 1-bits and the result is 8. -/
theorem getCIDRnetmask_leadingOnes_counterexample :
    (IsOctet "255".toList ∧ IsOctet "128".toList ∧ IsOctet "0".toList ∧
      decValue "255".toList = 255 ∧ decValue "128".toList = 128 ∧ decValue "0".toList = 0 ∧
      joinDots "255".toList "128".toList "255".toList "0".toList = "255.128.255.0".toList) ∧
    getCIDRnetmask "255.128.255.0".toList = .ok 17 ∧
    leadingOnes 32 (mask32 255 128 255 0) = 9 ∧
    getCIDRnetmask "255.193.0.0".toList = .ok 8 ∧
    leadingOnes 32 (mask32 255 193 0 0) = 10 := by
  decide

/-- C16, amended: for every four-octet dotted-decimal mask (each octet 0..255)
`getCIDRnetmask` returns a value, and that value is the count of leading
contiguous 1-bits of the 32-bit mask formed by the four octets in order exactly
when the first octet other than 255, if there is one, is below 128, or is one of
128, 192, 224, 240, 248, 252, 254 and is the last octet or is followed by an
octet that is not one of the eight mask bytes. -/
theorem getCIDRnetmask_leadingOnes_iff (t0 t1 t2 t3 : List Char)
    (h0 : IsOctet t0) (h1 : IsOctet t1) (h2 : IsOctet t2) (h3 : IsOctet t3) :
    ∃ r : Nat,
      getCIDRnetmask (joinDots t0 t1 t2 t3) = .ok (r : Int) ∧
      (r = leadingOnes 32 (mask32 (decValue t0) (decValue t1) (decValue t2) (decValue t3)) ↔
        agreesWithPrefix [decValue t0, decValue t1, decValue t2, decValue t3] = true) := by
  have b0 := h0.2
  have b1 := h1.2
  have b2 := h2.2
  have b3 := h3.2
  refine ⟨_, getCIDRnetmask_octets t0 t1 t2 t3 h0 h1 h2 h3, ?_⟩
  rw [leadingOnes_mask32 _ _ _ _ (by omega) (by omega) (by omega)]
  apply stopSum_eq_leading_iff
  intro o ho
  simp only [List.mem_cons, List.mem_singleton, List.not_mem_nil, or_false] at ho
  rcases ho with rfl | rfl | rfl | rfl <;> omega

set_option maxRecDepth 4000 in
/-- Witness for C16: the canonical mask `255.255.240.0` gives 20, its count of
leading 1-bits. -/
theorem getCIDRnetmask_leadingOnes_iff_witness :
    (getCIDRnetmask "255.255.240.0".toList = .ok 20 ∧
      leadingOnes 32 (mask32 255 255 240 0) = 20 ∧
      agreesWithPrefix [255, 255, 240, 0] = true ∧
      agreesWithPrefix [255, 128, 255, 0] = false) ∧
    ∃ r : Nat,
      getCIDRnetmask (joinDots "255".toList "255".toList "240".toList "0".toList)
        = .ok (r : Int) ∧
      (r = leadingOnes 32 (mask32 (decValue "255".toList) (decValue "255".toList)
          (decValue "240".toList) (decValue "0".toList)) ↔
        agreesWithPrefix [decValue "255".toList, decValue "255".toList,
          decValue "240".toList, decValue "0".toList] = true) :=
  ⟨by decide, getCIDRnetmask_leadingOnes_iff _ _ _ _ (by decide) (by decide) (by decide)
    (by decide)⟩

/-- C17: for a string that passes the numeric IPv6 parse with bytes `b[0..15]`
and a prefix length `p` with `0 ≤ p ≤ 127`, with `n = p / 8` even or odd, the two
loops of `getIpv6NetworkAddress` end normally having read exactly `n` bytes of
the address; the returned buffer holds exactly 39 characters (its last byte is
not written), a colon stands at the positions 4, 9, 14, 19, 24, 29, 34 and
nowhere else, the hex pair of byte `k` (at position `5 (k / 2) + 2 (k % 2)`) is
the two-digit lowercase hex of `b[k]` when `k < n` and `00` when `k ≥ n`; and a
prefix length `q` with the same `q / 8` gives the same output. -/
theorem getIpv6NetworkAddress_layout (inet_pton : Ipv6Parse) (s : List Char) (a : in6_addr)
    (p q : Int) (h : inet_pton s = some a) (hp0 : 0 ≤ p) (hp : p ≤ 127)
    (hq0 : 0 ≤ q) (hq : q ≤ 127) :
    ∃ (st1 st2 : Ipv6Fill) (text : List Char),
      copyLoop a (Int.tdiv p 8 * 2 + Int.tdiv (Int.tdiv p 8) 2) 17
        ⟨0, 0, 0, malloc (39 + 1)⟩ = .ok st1 ∧
      zeroLoop 20 st1 = .ok st2 ∧
      getIpv6NetworkAddress inet_pton s p = .ok (some st2.networkAddress) ∧
      st2.addrIndex = (p / 8).toNat ∧
      st2.networkAddress = text.map some ++ [none] ∧
      text.length = 39 ∧
      (∀ i, i < 39 → (text[i]? = some ':' ↔ i % 5 = 4)) ∧
      (∀ k, k < 16 → (text.drop (5 * (k / 2) + 2 * (k % 2))).take 2 =
        hexPair (if k < (p / 8).toNat then a.s6_addr.getD k 0 else 0)) ∧
      hexPair 0 = "00".toList ∧
      (q / 8 = p / 8 →
        getIpv6NetworkAddress inet_pton s q = getIpv6NetworkAddress inet_pton s p) := by
  obtain ⟨en, hn⟩ := tdiv8_of_nonneg p hp0 hp
  obtain ⟨st1, st2, e1, e2, e3, e4⟩ := loops_final a (p / 8).toNat hn
  have hlen16 : (prefixBytes (p / 8).toNat a.s6_addr).length = 16 := prefixBytes_length _ _
  refine ⟨st1, st2, expandedForm (prefixBytes (p / 8).toNat a.s6_addr), ?_, e2, ?_, e3, e4,
    expandedForm_length_sixteen _ hlen16, fun i hi => expandedForm_colon_iff _ hlen16 i hi,
    ?_, rfl, ?_⟩
  · rw [copyLoop_eq_copyLoopHex, en]
    exact e1
  · have hres := getIpv6NetworkAddress_parsed inet_pton s a p h hp
    rw [hres, e4, Int.tdiv_eq_ediv hp0 (by decide)]
  · intro k hk
    rw [expandedForm_pair _ hlen16 k hk, prefixBytes_getD _ _ k hk]
  · intro hqp
    rw [getIpv6NetworkAddress_parsed inet_pton s a p h hp,
      getIpv6NetworkAddress_parsed inet_pton s a q h hq,
      Int.tdiv_eq_ediv hp0 (by decide), Int.tdiv_eq_ediv hq0 (by decide), hqp]

set_option maxRecDepth 100000 in
/-- Witness for C17: `2001:db8::1` with the prefix lengths 24 and 31, three bytes
covered, an odd count. -/
theorem getIpv6NetworkAddress_layout_witness :
    (sampleParse "2001:db8::1".toList = some addrDb81 ∧
      getIpv6NetworkAddress sampleParse "2001:db8::1".toList 24 =
        .ok (some ("2001:0d00:0000:0000:0000:0000:0000:0000".toList.map some ++ [none])) ∧
      getIpv6NetworkAddress sampleParse "2001:db8::1".toList 31 =
        .ok (some ("2001:0d00:0000:0000:0000:0000:0000:0000".toList.map some ++ [none]))) ∧
    ∃ (st1 st2 : Ipv6Fill) (text : List Char),
      copyLoop addrDb81 (Int.tdiv 24 8 * 2 + Int.tdiv (Int.tdiv 24 8) 2) 17
        ⟨0, 0, 0, malloc (39 + 1)⟩ = .ok st1 ∧
      zeroLoop 20 st1 = .ok st2 ∧
      getIpv6NetworkAddress sampleParse "2001:db8::1".toList 24
        = .ok (some st2.networkAddress) ∧
      st2.addrIndex = ((24 : Int) / 8).toNat ∧
      st2.networkAddress = text.map some ++ [none] ∧
      text.length = 39 ∧
      (∀ i, i < 39 → (text[i]? = some ':' ↔ i % 5 = 4)) ∧
      (∀ k, k < 16 → (text.drop (5 * (k / 2) + 2 * (k % 2))).take 2 =
        hexPair (if k < ((24 : Int) / 8).toNat then addrDb81.s6_addr.getD k 0 else 0)) ∧
      hexPair 0 = "00".toList ∧
      ((31 : Int) / 8 = 24 / 8 →
        getIpv6NetworkAddress sampleParse "2001:db8::1".toList 31 =
          getIpv6NetworkAddress sampleParse "2001:db8::1".toList 24) :=
  ⟨⟨rfl, by decide, by decide⟩,
    getIpv6NetworkAddress_layout sampleParse _ addrDb81 24 31 rfl (by decide) (by decide)
      (by decide) (by decide)⟩

/-- C18: buffer sizing in `formatIPv4Address` is exact: for four dot-separated
decimal tokens with values in 0..255 the loop ends with `newAddrSize` equal to 3
plus 1, 2 or 3 per octet (value below 10, below 100, otherwise), this is the
length of the text `"%d.%d.%d.%d"` writes, and the buffer reallocated to
`newAddrSize + 1` bytes holds the text and its terminator. -/
theorem formatIPv4Address_sizing (t0 t1 t2 t3 : List Char)
    (h0 : IsOctet t0) (h1 : IsOctet t1) (h2 : IsOctet t2) (h3 : IsOctet t3) :
    ∃ (ipBytes : IntArray) (newAddrSize : Nat) (r : Reformatted),
      widthLoop 4 (strtok (joinDots t0 t1 t2 t3)).1 (strtok (joinDots t0 t1 t2 t3)).2 0
        freshInts 3 = .ok (ipBytes, newAddrSize) ∧
      newAddrSize = 3 + digitWidth (decValue t0) + digitWidth (decValue t1)
        + digitWidth (decValue t2) + digitWidth (decValue t3) ∧
      formatIPv4Address (joinDots t0 t1 t2 t3) = .ok r ∧
      r.text.length = newAddrSize ∧
      r.reallocTo = some (newAddrSize + 1) ∧
      r.text.length + 1 ≤ newAddrSize + 1 := by
  have b0 := h0.2
  have b1 := h1.2
  have b2 := h2.2
  have b3 := h3.2
  refine ⟨_, _, _,
    widthLoop_joinDots t0 t1 t2 t3 h0.1 h1.1 h2.1 h3.1 (by omega) (by omega) (by omega)
      (by omega), rfl,
    formatIPv4Address_joinDots t0 t1 t2 t3 h0.1 h1.1 h2.1 h3.1 (by omega) (by omega)
      (by omega) (by omega), ?_, rfl, ?_⟩
  · exact dotted4_length_width _ _ _ _ (by omega) (by omega) (by omega) (by omega)
  · exact Nat.le_of_eq (congrArg (· + 1)
      (dotted4_length_width _ _ _ _ (by omega) (by omega) (by omega) (by omega)))

set_option maxRecDepth 4000 in
/-- Witness for C18: `192.168.001.10` needs 12 characters and 13 bytes are
reallocated. -/
theorem formatIPv4Address_sizing_witness :
    formatIPv4Address "192.168.001.10".toList
        = .ok { text := "192.168.1.10".toList, reallocTo := some 13 } ∧
    ∃ (ipBytes : IntArray) (newAddrSize : Nat) (r : Reformatted),
      widthLoop 4 (strtok (joinDots "192".toList "168".toList "001".toList "10".toList)).1
        (strtok (joinDots "192".toList "168".toList "001".toList "10".toList)).2 0
        freshInts 3 = .ok (ipBytes, newAddrSize) ∧
      newAddrSize = 3 + digitWidth (decValue "192".toList) + digitWidth (decValue "168".toList)
        + digitWidth (decValue "001".toList) + digitWidth (decValue "10".toList) ∧
      formatIPv4Address (joinDots "192".toList "168".toList "001".toList "10".toList)
        = .ok r ∧
      r.text.length = newAddrSize ∧
      r.reallocTo = some (newAddrSize + 1) ∧
      r.text.length + 1 ≤ newAddrSize + 1 :=
  ⟨by decide, formatIPv4Address_sizing _ _ _ _ (by decide) (by decide) (by decide)
    (by decide)⟩

/-- C19: for an address and a netmask of four dot-separated decimal tokens with
values in 0..255, the string `getIpv4NetworkAddress` formats is `n0.n1.n2.n3`
with at least 7 and at most 15 characters, so that with its terminator it fits
the 17-byte buffer, and each `ni` is a decimal numeral with a value in 0..255
that is not greater than the corresponding address octet. -/
theorem getIpv4NetworkAddress_fits (a0 a1 a2 a3 m0 m1 m2 m3 : List Char)
    (ha0 : IsOctet a0) (ha1 : IsOctet a1) (ha2 : IsOctet a2) (ha3 : IsOctet a3)
    (hm0 : IsOctet m0) (hm1 : IsOctet m1) (hm2 : IsOctet m2) (hm3 : IsOctet m3) :
    ∃ n0 n1 n2 n3 : List Char,
      getIpv4NetworkAddress (joinDots a0 a1 a2 a3) (joinDots m0 m1 m2 m3)
        = .ok (joinDots n0 n1 n2 n3) ∧
      7 ≤ (joinDots n0 n1 n2 n3).length ∧
      (joinDots n0 n1 n2 n3).length ≤ 15 ∧
      (joinDots n0 n1 n2 n3).length + 1 ≤ 17 ∧
      (IsOctet n0 ∧ IsOctet n1 ∧ IsOctet n2 ∧ IsOctet n3) ∧
      decValue n0 ≤ decValue a0 ∧ decValue n1 ≤ decValue a1 ∧
      decValue n2 ≤ decValue a2 ∧ decValue n3 ≤ decValue a3 := by
  have l0 : decValue a0 &&& decValue m0 ≤ decValue a0 := Nat.and_le_left
  have l1 : decValue a1 &&& decValue m1 ≤ decValue a1 := Nat.and_le_left
  have l2 : decValue a2 &&& decValue m2 ≤ decValue a2 := Nat.and_le_left
  have l3 : decValue a3 &&& decValue m3 ≤ decValue a3 := Nat.and_le_left
  have b0 := ha0.2
  have b1 := ha1.2
  have b2 := ha2.2
  have b3 := ha3.2
  have c0 := fmtD_canonical (decValue a0 &&& decValue m0) (by omega)
  have c1 := fmtD_canonical (decValue a1 &&& decValue m1) (by omega)
  have c2 := fmtD_canonical (decValue a2 &&& decValue m2) (by omega)
  have c3 := fmtD_canonical (decValue a3 &&& decValue m3) (by omega)
  have hlen := dotted4_length_width (decValue a0 &&& decValue m0) (decValue a1 &&& decValue m1)
    (decValue a2 &&& decValue m2) (decValue a3 &&& decValue m3)
    (by omega) (by omega) (by omega) (by omega)
  rw [dotted4_eq_joinDots] at hlen
  have w0 := digitWidth_le (decValue a0 &&& decValue m0)
  have w1 := digitWidth_le (decValue a1 &&& decValue m1)
  have w2 := digitWidth_le (decValue a2 &&& decValue m2)
  have w3 := digitWidth_le (decValue a3 &&& decValue m3)
  have p0 := digitWidth_pos (decValue a0 &&& decValue m0)
  have p1 := digitWidth_pos (decValue a1 &&& decValue m1)
  have p2 := digitWidth_pos (decValue a2 &&& decValue m2)
  have p3 := digitWidth_pos (decValue a3 &&& decValue m3)
  refine ⟨_, _, _, _,
    getIpv4NetworkAddress_joinDots a0 a1 a2 a3 m0 m1 m2 m3 ha0 ha1 ha2 ha3 hm0 hm1 hm2 hm3,
    by omega, by omega, by omega,
    ⟨⟨c0.1, by rw [c0.2.1]; omega⟩, ⟨c1.1, by rw [c1.2.1]; omega⟩,
      ⟨c2.1, by rw [c2.2.1]; omega⟩, ⟨c3.1, by rw [c3.2.1]; omega⟩⟩,
    by rw [c0.2.1]; exact l0, by rw [c1.2.1]; exact l1, by rw [c2.2.1]; exact l2,
    by rw [c3.2.1]; exact l3⟩

set_option maxRecDepth 4000 in
/-- Witness for C19: `192.168.1.10` under `255.255.255.0` gives the 11 characters
of `192.168.1.0`. -/
theorem getIpv4NetworkAddress_fits_witness :
    (getIpv4NetworkAddress "192.168.1.10".toList "255.255.255.0".toList
        = .ok "192.168.1.0".toList ∧ "192.168.1.0".toList.length = 11 ∧
      getIpv4NetworkAddress "0.0.0.0".toList "0.0.0.0".toList = .ok "0.0.0.0".toList ∧
      (getIpv4NetworkAddress "255.255.255.255".toList "255.255.255.255".toList).map
        List.length = .ok 15) ∧
    ∃ n0 n1 n2 n3 : List Char,
      getIpv4NetworkAddress (joinDots "192".toList "168".toList "1".toList "10".toList)
          (joinDots "255".toList "255".toList "255".toList "0".toList)
        = .ok (joinDots n0 n1 n2 n3) ∧
      7 ≤ (joinDots n0 n1 n2 n3).length ∧
      (joinDots n0 n1 n2 n3).length ≤ 15 ∧
      (joinDots n0 n1 n2 n3).length + 1 ≤ 17 ∧
      (IsOctet n0 ∧ IsOctet n1 ∧ IsOctet n2 ∧ IsOctet n3) ∧
      decValue n0 ≤ decValue "192".toList ∧ decValue n1 ≤ decValue "168".toList ∧
      decValue n2 ≤ decValue "1".toList ∧ decValue n3 ≤ decValue "10".toList :=
  ⟨by decide, getIpv4NetworkAddress_fits _ _ _ _ _ _ _ _ (by decide) (by decide) (by decide)
    (by decide) (by decide) (by decide) (by decide) (by decide)⟩

/-- C20: for two strings that both pass the numeric IPv6 parse,
`compareIPv6Addresses` returns a value whose sign is the sign of the numeric
comparison of the two 16-byte addresses read as 128-bit big-endian unsigned
integers; in particular it is negative exactly when the first address is
numerically smaller. -/
theorem compareIPv6Addresses_sign (inet_pton : Ipv6Parse) (s t : List Char)
    (a b : in6_addr) (ha : inet_pton s = some a) (hb : inet_pton t = some b) :
    ∃ r : Int,
      compareIPv6Addresses inet_pton s t = .ok r ∧
      Int.sign r = Int.sign ((beValue a.s6_addr : Int) - (beValue b.s6_addr : Int)) ∧
      (r < 0 ↔ beValue a.s6_addr < beValue b.s6_addr) ∧
      beValue a.s6_addr < 2 ^ 128 ∧ beValue b.s6_addr < 2 ^ 128 := by
  have hsign : Int.sign (strcmp (expandedForm a.s6_addr) (expandedForm b.s6_addr)) =
      Int.sign ((beValue a.s6_addr : Int) - (beValue b.s6_addr : Int)) := by
    rw [expandedForm_eq_textFrom _ a.size_eq, expandedForm_eq_textFrom _ b.size_eq]
    exact strcmp_textFrom_sign _ _ false (by rw [a.size_eq, b.size_eq]) a.byte_lt b.byte_lt
  have la := beValue_lt a.s6_addr a.byte_lt
  have lb := beValue_lt b.s6_addr b.byte_lt
  rw [a.size_eq] at la
  rw [b.size_eq] at lb
  refine ⟨strcmp (expandedForm a.s6_addr) (expandedForm b.s6_addr), ?_, hsign, ?_,
    by norm_num at la ⊢; exact la, by norm_num at lb ⊢; exact lb⟩
  · unfold compareIPv6Addresses
    rw [formatIPv6Address_parsed inet_pton s a ha, formatIPv6Address_parsed inet_pton t b hb]
    rfl
  · rw [← Int.sign_eq_neg_one_iff_neg, hsign, Int.sign_eq_neg_one_iff_neg]
    omega

set_option maxRecDepth 8000 in
/-- Witness for C20: `2001:db8::1` is numerically smaller than
`2001:db8::1428:57ab` and compares as negative. -/
theorem compareIPv6Addresses_sign_witness :
    (sampleParse "2001:db8::1".toList = some addrDb81 ∧
      sampleParse "2001:db8::1428:57ab".toList = some addr57ab ∧
      compareIPv6Addresses sampleParse "2001:db8::1".toList "2001:db8::1428:57ab".toList
        = .ok (-1) ∧
      beValue addrDb81.s6_addr < beValue addr57ab.s6_addr) ∧
    ∃ r : Int,
      compareIPv6Addresses sampleParse "2001:db8::1".toList "2001:db8::1428:57ab".toList
        = .ok r ∧
      Int.sign r =
        Int.sign ((beValue addrDb81.s6_addr : Int) - (beValue addr57ab.s6_addr : Int)) ∧
      (r < 0 ↔ beValue addrDb81.s6_addr < beValue addr57ab.s6_addr) ∧
      beValue addrDb81.s6_addr < 2 ^ 128 ∧ beValue addr57ab.s6_addr < 2 ^ 128 :=
  ⟨⟨rfl, rfl, by decide, by decide⟩,
    compareIPv6Addresses_sign sampleParse _ _ addrDb81 addr57ab rfl rfl⟩

end Rib
